import Mathlib

/-!
Verification development for the SOW generator core (`sow_generator.py`).

The Python code is shallowly embedded: strings are `String`, Python `dict`s
are insertion-ordered association lists with update-in-place semantics,
pandas cell values are modelled by an explicit `Amount` type, and the
python-docx document model is a paragraph/run/table/cell tree.  Fallible
cell access (`IndexError`) is modelled with `Option` via `l[i]?`.
All definitions are executable and structurally recursive so that concrete
instances evaluate by `decide`/`rfl`.
-/

namespace SOWGen

/-! ## String utilities (models of Python `str` operations) -/

/-- Model of testing whether `p` is a leading segment of `s` (used to build
the substring test). -/
def leadsWith : List Char → List Char → Bool
  | [], _ => true
  | _ :: _, [] => false
  | a :: ps, b :: bs => a == b && leadsWith ps bs

/-- Model of Python `p in s` on lists of characters: `p` occurs contiguously
inside `s`.  The empty pattern occurs in every string, as in Python. -/
def occursIn (p : List Char) : List Char → Bool
  | [] => p.isEmpty
  | b :: bs => leadsWith p (b :: bs) || occursIn p bs

/-- Model of Python `p in s` for strings. -/
def substrB (p s : String) : Bool := occursIn p.toList s.toList

/-- Model of Python `str.lower()` (ASCII case folding). -/
def pyLower (s : String) : String := ⟨s.toList.map Char.toLower⟩

/-- Model of Python `str.upper()` (ASCII case folding). -/
def pyUpper (s : String) : String := ⟨s.toList.map Char.toUpper⟩

/-- Characters stripped by Python `str.strip()`. -/
def trimChars (l : List Char) : List Char :=
  ((l.dropWhile Char.isWhitespace).reverse.dropWhile Char.isWhitespace).reverse

/-- Model of Python `str.strip()`. -/
def pyStrip (s : String) : String := ⟨trimChars s.toList⟩

/-- Helper for `pyTitle`: `prev` records whether the previous character was
a cased (alphabetic) character. -/
def pyTitleAux : Bool → List Char → List Char
  | _, [] => []
  | prev, c :: cs =>
    (if c.isAlpha then (if prev then c.toLower else c.toUpper) else c) ::
      pyTitleAux c.isAlpha cs

/-- Model of Python `str.title()`: the first letter of each alphabetic word
is uppercased, subsequent letters are lowercased. -/
def pyTitle (s : String) : String := ⟨pyTitleAux false s.toList⟩

/-- One scan of Python `str.replace(pat, rep)` for a non-empty pattern.
The first argument is fuel (the length of the scanned list suffices): each
step consumes at least one character, so the fuel is never exhausted when
initialised with the list length.  Replacement is non-overlapping and
left-to-right, as in Python. -/
def replAux (p rep : List Char) : Nat → List Char → List Char
  | 0, s => s
  | _ + 1, [] => []
  | fuel + 1, c :: cs =>
    if leadsWith p (c :: cs) then
      rep ++ replAux p rep fuel (List.drop (p.length - 1) cs)
    else
      c :: replAux p rep fuel cs

/-- Model of Python `str.replace(pat, rep)`.  An empty pattern inserts the
replacement at every gap, as CPython does. -/
def pyReplace (s pat rep : String) : String :=
  match pat.toList with
  | [] => ⟨rep.toList ++ s.toList.flatMap (fun c => c :: rep.toList)⟩
  | c :: cs => ⟨replAux (c :: cs) rep.toList s.toList.length s.toList⟩

/-- Render a natural number below 1000 without padding (used for the
leading group of Python's thousands-separated format). -/
def natLit3 (n : Nat) : String :=
  if n < 10 then ⟨[Nat.digitChar n]⟩
  else if n < 100 then ⟨[Nat.digitChar (n / 10), Nat.digitChar (n % 10)]⟩
  else ⟨[Nat.digitChar (n / 100 % 10), Nat.digitChar (n / 10 % 10), Nat.digitChar (n % 10)]⟩

/-- A zero-padded three-digit group. -/
def pad3 (n : Nat) : String :=
  ⟨[Nat.digitChar (n / 100 % 10), Nat.digitChar (n / 10 % 10), Nat.digitChar (n % 10)]⟩

/-- Thousands grouping of a natural number, as in Python format spec `,`.
The first argument is fuel; `n` itself is always sufficient fuel since the
quotient shrinks by a factor of 1000 each step. -/
def natCommaAux : Nat → Nat → String
  | 0, n => natLit3 n
  | fuel + 1, n =>
    if n < 1000 then natLit3 n
    else natCommaAux fuel (n / 1000) ++ "," ++ pad3 (n % 1000)

/-- Python `format(n, ",")` for naturals. -/
def natComma (n : Nat) : String := natCommaAux n n

/-- Python `f"{n:,}"` for integers: sign, then grouped digits. -/
def pyIntComma (n : Int) : String :=
  (if n < 0 then "-" else "") ++ natComma n.natAbs

/-- Python `int()` on an exact rational: truncation toward zero. -/
def truncQ (q : ℚ) : Int :=
  if 0 ≤ q.num then ((q.num.toNat / q.den : Nat) : Int)
  else -(((-q.num).toNat / q.den : Nat) : Int)

/-! ## Python `dict` model

Insertion-ordered association list.  Assignment `d[k] = v` updates the
first (for dict-built lists: only) binding of `k` in place, otherwise
appends; lookup returns the first binding. -/

/-- A Python `dict` from strings to strings. -/
abbrev Dict := List (String × String)

/-- Model of `d[k] = v`. -/
def dictInsert : Dict → String → String → Dict
  | [], k, v => [(k, v)]
  | (k', v') :: rest, k, v =>
    if k' = k then (k, v) :: rest else (k', v') :: dictInsert rest k v

/-- Model of `d.get(k)` / `d[k]`. -/
def dlookup (k : String) : Dict → Option String
  | [] => none
  | (k', v') :: rest => if k' = k then some v' else dlookup k rest

/-- The key list of a dict. -/
def keysOf (d : Dict) : List String := d.map Prod.fst

/-- Model of Python `{**a, **b}`: start from `a` and assign every pair of
`b` in order. -/
def mergeDicts (a b : Dict) : Dict :=
  b.foldl (fun d p => dictInsert d p.1 p.2) a

/-! ## Budget sheet processing (`process_excel_file`, lines 55-94) -/

/-- A pandas cell from column F of the Budget sheet, classified by the
tests the code performs on it: `missing` fails `pd.notna`; `blank` has a
whitespace-only string form; `numeric q` coerces via `float()` to the exact
value `q`; `junk` is non-blank but fails the coercion. -/
inductive Amount where
  | missing : Amount
  | blank : Amount
  | numeric : ℚ → Amount
  | junk : String → Amount
deriving DecidableEq

/-- The string stored for one qualifying budget row
(`sow_generator.py` lines 66-74): formatted dollars on successful numeric
coercion, the empty string otherwise. -/
def storedAmount : Amount → String
  | .missing => ""
  | .blank => ""
  | .numeric q => "$" ++ pyIntComma (truncQ q)
  | .junk _ => ""

/-- A raw Budget-sheet row: the column-A cell rendered by `str()`, and the
column-F cell. -/
abbrev BudgetRow := String × Amount

/-- The loop of lines 59-74: index `i` counts rows, row 0 and rows with an
empty or `"nan"` phase are skipped; otherwise
`phase_mapping[phase.lower()] = formatted`. -/
def processBudgetAux (i : Nat) (d : Dict) : List BudgetRow → Dict
  | [] => d
  | (ph, am) :: rest =>
    let phase := pyStrip ph
    if phase = "" ∨ pyLower phase = "nan" ∨ pyLower phase = "" ∨ i = 0 then
      processBudgetAux (i + 1) d rest
    else
      processBudgetAux (i + 1) (dictInsert d (pyLower phase) (storedAmount am)) rest

/-- The `phase_mapping` built from the Budget sheet. -/
def processBudgetSheet (rows : List BudgetRow) : Dict :=
  processBudgetAux 0 [] rows

/-- Line 83: `"{" + phase.upper().replace(" ", "").replace("&", "") + "}"`. -/
def mkPlaceholderKey (phase : String) : String :=
  "\x7b" ++ pyReplace (pyReplace (pyUpper phase) " " "") "&" "" ++ "\x7d"

/-- One step of the `budget_placeholders` loop (lines 78-84). -/
def budgetStep (d : Dict) (p : String × String) : Dict :=
  if p.1 = "total" then
    dictInsert (dictInsert d "{TOTAL}" p.2) "{PROJECTTOTAL}" p.2
  else
    dictInsert d (mkPlaceholderKey p.1) p.2

/-- The placeholder keys that one `phase_mapping` pair contributes to
`budget_placeholders` (lines 78-84). -/
def genPlaceholderKeys (p : String × String) : List String :=
  if p.1 = "total" then ["{TOTAL}", "{PROJECTTOTAL}"] else [mkPlaceholderKey p.1]

/-- Lines 77-84: derive `budget_placeholders` from `phase_mapping`. -/
def budgetPlaceholders (m : Dict) : Dict :=
  m.foldl budgetStep []

/-- Line 91: `self.replacements = {**variable_dict, **budget_placeholders}`. -/
def processReplacements (variableDict : Dict) (m : Dict) : Dict :=
  mergeDicts variableDict (budgetPlaceholders m)

/-! ## Variables sheet date normalization (`process_excel_file`, lines 39-53)

CPython `strptime` compiles each directive to a regular expression:
`%Y` is exactly four digits, `%m` is `1[0-2]|0[1-9]|[1-9]`,
`%d` is `3[01]|[12][0-9]|0[1-9]|[1-9]`, `%H` is `2[0-3]|[0-1][0-9]|[0-9]`,
and `%M`/`%S` are `[0-5][0-9]|[0-9]`.  Alternatives are tried longest
first; since every directive here is followed by a non-digit literal (or
the end-of-input check), the greedy choice never needs backtracking, so
the parsers below take the longest alternative directly.  Leftover input
makes `strptime` raise, and the `datetime` constructor validates the day
against the month length and the year against 1..9999. -/

/-- Decimal value of a digit character. -/
def charDigitVal (c : Char) : Nat := c.toNat - 48

/-- `%Y`: exactly four digits. -/
def parse4D : List Char → Option (Nat × List Char)
  | a :: b :: c :: d :: rest =>
    if a.isDigit && b.isDigit && c.isDigit && d.isDigit then
      some (1000 * charDigitVal a + 100 * charDigitVal b + 10 * charDigitVal c +
        charDigitVal d, rest)
    else none
  | _ => none

/-- Consume one expected literal character. -/
def expectCh (c : Char) : List Char → Option (List Char)
  | [] => none
  | b :: bs => if b == c then some bs else none

/-- `%m`: `1[0-2]|0[1-9]|[1-9]`. -/
def parseMD : List Char → Option (Nat × List Char)
  | [] => none
  | [c] => if c.isDigit && c ≠ '0' then some (charDigitVal c, []) else none
  | c1 :: c2 :: rest =>
    if c1 = '1' && (c2 = '0' || c2 = '1' || c2 = '2') then
      some (10 + charDigitVal c2, rest)
    else if c1 = '0' && c2.isDigit && c2 ≠ '0' then
      some (charDigitVal c2, rest)
    else if c1.isDigit && c1 ≠ '0' then
      some (charDigitVal c1, c2 :: rest)
    else none

/-- `%d`: `3[01]|[12][0-9]|0[1-9]|[1-9]`. -/
def parseDD : List Char → Option (Nat × List Char)
  | [] => none
  | [c] => if c.isDigit && c ≠ '0' then some (charDigitVal c, []) else none
  | c1 :: c2 :: rest =>
    if c1 = '3' && (c2 = '0' || c2 = '1') then
      some (30 + charDigitVal c2, rest)
    else if (c1 = '1' || c1 = '2') && c2.isDigit then
      some (10 * charDigitVal c1 + charDigitVal c2, rest)
    else if c1 = '0' && c2.isDigit && c2 ≠ '0' then
      some (charDigitVal c2, rest)
    else if c1.isDigit && c1 ≠ '0' then
      some (charDigitVal c1, c2 :: rest)
    else none

/-- `%H`: `2[0-3]|[0-1][0-9]|[0-9]`. -/
def parseHH : List Char → Option (Nat × List Char)
  | [] => none
  | [c] => if c.isDigit then some (charDigitVal c, []) else none
  | c1 :: c2 :: rest =>
    if c1 = '2' && (c2 = '0' || c2 = '1' || c2 = '2' || c2 = '3') then
      some (20 + charDigitVal c2, rest)
    else if (c1 = '0' || c1 = '1') && c2.isDigit then
      some (10 * charDigitVal c1 + charDigitVal c2, rest)
    else if c1.isDigit then
      some (charDigitVal c1, c2 :: rest)
    else none

/-- `%M` and `%S`: `[0-5][0-9]|[0-9]`. -/
def parseMS : List Char → Option (Nat × List Char)
  | [] => none
  | [c] => if c.isDigit then some (charDigitVal c, []) else none
  | c1 :: c2 :: rest =>
    if c1.isDigit && charDigitVal c1 ≤ 5 && c2.isDigit then
      some (10 * charDigitVal c1 + charDigitVal c2, rest)
    else if c1.isDigit then
      some (charDigitVal c1, c2 :: rest)
    else none

/-- Gregorian leap year test, as in `datetime`. -/
def isLeap (y : Nat) : Bool := y % 4 = 0 && (y % 100 ≠ 0 || y % 400 = 0)

/-- Month lengths, as validated by the `datetime` constructor. -/
def daysInMonth (y m : Nat) : Nat :=
  if m = 2 then (if isLeap y then 29 else 28)
  else if m = 4 ∨ m = 6 ∨ m = 9 ∨ m = 11 then 30
  else 31

/-- `datetime(y, m, d)` constructor validation. -/
def dateOK (y m d : Nat) : Bool :=
  1 ≤ y && y ≤ 9999 && 1 ≤ m && m ≤ 12 && 1 ≤ d && d ≤ daysInMonth y m

/-- `datetime.strptime(v, "%Y-%m-%d")` on the character list, including the
unconverted-remainder check and constructor validation. -/
def parseYMDList (cs : List Char) : Option (Nat × Nat × Nat) := do
  let (y, r1) ← parse4D cs
  let r2 ← expectCh '-' r1
  let (m, r3) ← parseMD r2
  let r4 ← expectCh '-' r3
  let (d, r5) ← parseDD r4
  if r5 = [] ∧ dateOK y m d then some (y, m, d) else none

/-- `datetime.strptime(v, "%Y-%m-%d")`. -/
def parseYMD (v : String) : Option (Nat × Nat × Nat) := parseYMDList v.toList

/-- `datetime.strptime(v, "%Y-%m-%d %H:%M:%S")`.  Only the calendar date is
returned, since the code formats the result with `%d-%b-%y`. -/
def strptimeFull (v : String) : Option (Nat × Nat × Nat) := do
  let (y, r1) ← parse4D v.toList
  let r2 ← expectCh '-' r1
  let (m, r3) ← parseMD r2
  let r4 ← expectCh '-' r3
  let (d, r5) ← parseDD r4
  let r6 ← expectCh ' ' r5
  let (_, r7) ← parseHH r6
  let r8 ← expectCh ':' r7
  let (_, r9) ← parseMS r8
  let r10 ← expectCh ':' r9
  let (_, r11) ← parseMS r10
  if r11 = [] ∧ dateOK y m d then some (y, m, d) else none

/-- A zero-padded two-digit field. -/
def pad2s (n : Nat) : String := ⟨[Nat.digitChar (n / 10 % 10), Nat.digitChar (n % 10)]⟩

/-- `%b`: abbreviated month name (C locale). -/
def monthAbb : Nat → String
  | 1 => "Jan" | 2 => "Feb" | 3 => "Mar" | 4 => "Apr" | 5 => "May" | 6 => "Jun"
  | 7 => "Jul" | 8 => "Aug" | 9 => "Sep" | 10 => "Oct" | 11 => "Nov" | 12 => "Dec"
  | _ => ""

/-- `parsed_date.strftime("%d-%b-%y")`. -/
def strftimeDMonY (y m d : Nat) : String :=
  pad2s d ++ "-" ++ monthAbb m ++ "-" ++ pad2s (y % 100)

/-- The canonical rendering `YYYY-MM-DD` of a calendar date (the input
shape the specification describes). -/
def fmtYMD (y m d : Nat) : String :=
  ⟨[Nat.digitChar (y / 1000 % 10), Nat.digitChar (y / 100 % 10),
    Nat.digitChar (y / 10 % 10), Nat.digitChar (y % 10), '-',
    Nat.digitChar (m / 10 % 10), Nat.digitChar (m % 10), '-',
    Nat.digitChar (d / 10 % 10), Nat.digitChar (d % 10)]⟩

/-- The date-normalization applied to one Variables-sheet string value
(`sow_generator.py` lines 43-53).  String values equal to `"nan"` or `""`
are skipped; a value containing `" 00:00:00"` is parsed with the full
format; otherwise a length-10 value containing `"-"` is parsed as
`%Y-%m-%d`; parse failures retain the original value. -/
def normalizeDateValue (v : String) : String :=
  if v = "nan" ∨ v = "" then v
  else if substrB " 00:00:00" v then
    match strptimeFull v with
    | some (y, m, d) => strftimeDMonY y m d
    | none => v
  else if v.length = 10 ∧ substrB "-" v then
    match parseYMD v with
    | some (y, m, d) => strftimeDMonY y m d
    | none => v
  else v

/-- The date-formatting pass over the whole Variables mapping
(lines 40-53): every value is normalized in place. -/
def processVariables (d : Dict) : Dict :=
  d.map (fun p => (p.1, normalizeDateValue p.2))

/-! ## python-docx document model -/

/-- Paragraph alignment (only CENTER is ever set by the code). -/
inductive PAlign where
  | center : PAlign
deriving DecidableEq

/-- A text run with its bold flag (`False` models the unset/inherited
state). -/
structure Run where
  text : String
  bold : Bool
deriving DecidableEq

/-- A paragraph: a list of runs plus an optional alignment
(`none` models the unset/inherited state). -/
structure Paragraph where
  runs : List Run
  alignment : Option PAlign
deriving DecidableEq

/-- A table cell: a list of paragraphs. -/
structure Cell where
  paragraphs : List Paragraph
deriving DecidableEq

/-- A table row. -/
structure TableRow where
  cells : List Cell
deriving DecidableEq

/-- A table: its grid column count (`tblGrid`, used by `add_row`) and its
rows. -/
structure Table where
  grid : Nat
  rows : List TableRow
deriving DecidableEq

/-- A document: body paragraphs and tables. -/
structure Document where
  paragraphs : List Paragraph
  tables : List Table
deriving DecidableEq

/-- `paragraph.text`: concatenation of the run texts. -/
def paraText (p : Paragraph) : String :=
  ⟨p.runs.foldr (fun r acc => r.text.toList ++ acc) []⟩

/-- Join paragraph texts with a newline (helper for `cellText`). -/
def joinNL : List String → List Char
  | [] => []
  | [s] => s.toList
  | s :: s2 :: rest => s.toList ++ '\n' :: joinNL (s2 :: rest)

/-- `cell.text`: paragraph texts joined by newlines. -/
def cellText (c : Cell) : String := ⟨joinNL (c.paragraphs.map paraText)⟩

/-- An empty paragraph (as created inside a fresh cell). -/
def emptyPara : Paragraph := ⟨[], none⟩

/-- A fresh cell, as created by `add_row`. -/
def blankCell : Cell := ⟨[emptyPara]⟩

/-- A fresh row with one cell per grid column, as created by
`table.add_row()`. -/
def blankRow (grid : Nat) : TableRow := ⟨List.replicate grid blankCell⟩

/-- Replace the cell at index `i` of a row. -/
def setCellAt (row : TableRow) (i : Nat) (c : Cell) : TableRow :=
  ⟨row.cells.set i c⟩

/-- Effect of `cell.text = ""` followed by
`cell.paragraphs[0].add_run(s)` and centering: a single centered paragraph
whose runs are the empty run left by the setter and the new run. -/
def centeredTextCell (s : String) : Cell :=
  ⟨[⟨[⟨"", false⟩, ⟨s, false⟩], some PAlign.center⟩]⟩

/-- The estimate cell written by the reconciler (lines 187-190, 249-252,
265-268). -/
def updatedEstimateCell (amt : String) : Cell := centeredTextCell amt

/-- The phase cell of a newly added row (lines 242-246): title-cased text,
bold, centered. -/
def newPhaseCell (k : String) : Cell :=
  ⟨[⟨[⟨"", false⟩, ⟨pyTitle k, true⟩], some PAlign.center⟩]⟩

/-- Model of Python `list.insert(i, x)` (clamping at the end), the net
effect of removing the freshly appended row and re-inserting it before the
total row. -/
def insertAt : Nat → α → List α → List α
  | 0, a, l => a :: l
  | _ + 1, a, [] => [a]
  | n + 1, a, x :: xs => x :: insertAt n a xs

/-! ## Text substitution (`replace_text_in_doc`, lines 100-136) -/

/-- Substitute every replacement pair into one paragraph: compute the
flattened text, apply each pair in order guarded by a containment test, and
if the text changed, clear all runs (keeping their formatting) and write
the new text into the first run (or a fresh run if there is none). -/
def substitutePara (reps : Dict) (p : Paragraph) : Paragraph :=
  let ft := reps.foldl
    (fun t kv => if substrB kv.1 t then pyReplace t kv.1 kv.2 else t)
    (paraText p)
  if ft = paraText p then p
  else
    match p.runs with
    | [] => ⟨[⟨ft, false⟩], p.alignment⟩
    | r0 :: rest =>
      ⟨{ r0 with text := ft } :: rest.map (fun r => { r with text := "" }), p.alignment⟩

/-- `replace_text_in_doc`: substitution over all body paragraphs and all
table-cell paragraphs. -/
def replaceTextInDoc (reps : Dict) (doc : Document) : Document :=
  { paragraphs := doc.paragraphs.map (substitutePara reps),
    tables := doc.tables.map (fun t =>
      { t with rows := t.rows.map (fun row =>
          ⟨row.cells.map (fun c => ⟨c.paragraphs.map (substitutePara reps)⟩)⟩) }) }

/-- Every flattened paragraph text of a document (body paragraphs and
table-cell paragraphs). -/
def allTexts (doc : Document) : List String :=
  doc.paragraphs.map paraText ++
    doc.tables.flatMap (fun t => t.rows.flatMap (fun row =>
      row.cells.flatMap (fun c => c.paragraphs.map paraText)))

/-- Decidable test that no replacement key occurs in any paragraph text of
the document. -/
def docKeyFree (reps : Dict) (doc : Document) : Bool :=
  (allTexts doc).all (fun t => reps.all (fun kv => !substrB kv.1 t))

/-! ## Budget table reconciliation (`sync_budget_table`, lines 138-273) -/

/-- Column detection (lines 150-158): scan the lowercased header texts; a
cell containing `"phase"` sets the phase column, otherwise a cell
containing `"estimate"` or `"cost"` sets the estimate column.  The scan
does not stop at the first hit. -/
def findColsAux (i : Nat) (pc ec : Option Nat) : List String → Option Nat × Option Nat
  | [] => (pc, ec)
  | h :: hs =>
    if substrB "phase" h then findColsAux (i + 1) (some i) ec hs
    else if substrB "estimate" h || substrB "cost" h then
      findColsAux (i + 1) pc (some i) hs
    else findColsAux (i + 1) pc ec hs

/-- `(phase_col, estimate_col)` for a header list. -/
def findCols (headers : List String) : Option Nat × Option Nat :=
  findColsAux 0 none none headers

/-- The lowercased stripped header texts of a table (lines 146-148). -/
def headerTexts (t : Table) : List String :=
  match t.rows with
  | [] => []
  | hdr :: _ => hdr.cells.map (fun c => pyLower (pyStrip (cellText c)))

/-- The test deciding whether a table is processed as the budget table
(lines 142, 160): at least two rows, at least three header cells, and both
columns detected. -/
def qualifies (t : Table) : Bool :=
  2 ≤ t.rows.length &&
    (match t.rows with
     | [] => false
     | hdr :: _ => 3 ≤ hdr.cells.length) &&
    (findCols (headerTexts t)).1.isSome && (findCols (headerTexts t)).2.isSome

/-- The phase-matching loop of lines 179-183: the first mapping pair whose
key contains, or is contained in, the row's lowercased phase text. -/
def findFirstMatch (m : Dict) (phaseLower : String) : Option (String × String) :=
  m.find? (fun p => substrB p.1 phaseLower || substrB phaseLower p.1)

/-- Processing of one data row (lines 171-197): fetch both cells (an
`IndexError` skips the row), then either update the estimate cell of a
matched row, keep an unmatched total row, or flag an unmatched row for
removal.  Returns the (possibly updated) row, the matched key if any, and
the removal flag. -/
def processRow (m : Dict) (pc ec : Nat) (row : TableRow) : TableRow × Option String × Bool :=
  match row.cells[pc]?, row.cells[ec]? with
  | some pcell, some _ =>
    let phaseLower := pyLower (pyStrip (cellText pcell))
    match findFirstMatch m phaseLower with
    | some kv => (setCellAt row ec (updatedEstimateCell kv.2), some kv.1, false)
    | none =>
      if phaseLower = "total" ∨ phaseLower = "estimated total" then (row, none, false)
      else (row, none, true)
  | _, _ => (row, none, false)

/-- The loop of lines 167-197 over the data rows, starting at row index
`i`: produces the updated rows, the indices marked for removal, and the
set of matched (seen) phase keys. -/
def updateLoop (m : Dict) (pc ec : Nat) : Nat → List TableRow →
    List TableRow × List Nat × List String
  | _, [] => ([], [], [])
  | i, r :: rs =>
    let step := processRow m pc ec r
    let rest := updateLoop m pc ec (i + 1) rs
    (step.1 :: rest.1,
     (if step.2.2 then [i] else []) ++ rest.2.1,
     (match step.2.1 with | some k => [k] | none => []) ++ rest.2.2)

/-- The removal loop of lines 200-207: erase the marked row indices from
the full row list in reverse (descending) order.  Out-of-range erasure is
a no-op, like the `except` clause. -/
def removeMarked (rows : List TableRow) (marks : List Nat) : List TableRow :=
  marks.reverse.foldl (fun rs i => rs.eraseIdx i) rows

/-- Lines 163-207 as one operation on the full row list (header kept):
update matched rows, then remove flagged rows; also returns the seen
keys. -/
def updateRemovePass (m : Dict) (pc ec : Nat) (rows : List TableRow) :
    List TableRow × List String :=
  match rows with
  | [] => ([], [])
  | hdr :: data =>
    let res := updateLoop m pc ec 1 data
    (removeMarked (hdr :: res.1) res.2.1, res.2.2)

/-- The total-row scan of lines 210-218, starting at row index `i`: the
first data row whose phase text contains `"total"`; rows whose phase cell
is missing are skipped. -/
def findTotalAux (pc : Nat) (i : Nat) : List TableRow → Option Nat
  | [] => none
  | r :: rs =>
    match r.cells[pc]? with
    | none => findTotalAux pc (i + 1) rs
    | some c =>
      if substrB "total" (pyLower (pyStrip (cellText c))) then some i
      else findTotalAux pc (i + 1) rs

/-- `total_row_idx` over the full row list. -/
def findTotalIdx (pc : Nat) (rows : List TableRow) : Option Nat :=
  findTotalAux pc 1 (rows.drop 1)

/-- The mapping pairs the add loop actually inserts (guard of line 222). -/
def missingOf (m : Dict) (seen : List String) : Dict :=
  m.filter (fun p => !(seen.contains p.1) && p.1 ≠ "total")

/-- The fully formed new row for a missing phase (lines 237-252): a fresh
grid-wide row whose phase and estimate cells are populated when both
column indices fit the grid; otherwise the exception leaves the row
blank. -/
def newRowFor (pc ec grid : Nat) (k a : String) : TableRow :=
  if pc < grid ∧ ec < grid then
    setCellAt (setCellAt (blankRow grid) pc (newPhaseCell k)) ec (updatedEstimateCell a)
  else blankRow grid

/-- The add loop of lines 221-255: for each mapping pair not seen and not
`"total"`, append a fresh row; when a total row was found at index `j`,
relocate the new row to index `j` (the variable `total_row_idx` is not
updated as rows are inserted).  Population of the new row's cells fails
harmlessly when the grid is too narrow. -/
def addMissingLoop (pc ec grid : Nat) (tIdx : Option Nat) (seen : List String) :
    Dict → List TableRow → List TableRow
  | [], rows => rows
  | p :: rest, rows =>
    if !(seen.contains p.1) && p.1 ≠ "total" then
      let newRow := newRowFor pc ec grid p.1 p.2
      match tIdx with
      | some j => addMissingLoop pc ec grid tIdx seen rest (insertAt j newRow rows)
      | none => addMissingLoop pc ec grid tIdx seen rest (rows ++ [newRow])
    else addMissingLoop pc ec grid tIdx seen rest rows

/-- The total-update loop of lines 259-271 over the data rows: find the
first row whose phase text contains `"total"` (rows with a missing phase
or estimate cell are skipped by the `except` clause) and overwrite its
estimate cell with the total amount, then stop. -/
def totalUpdateLoop (pc ec : Nat) (amt : String) : List TableRow → List TableRow
  | [] => []
  | r :: rs =>
    match r.cells[pc]? with
    | none => r :: totalUpdateLoop pc ec amt rs
    | some c =>
      if substrB "total" (pyLower (pyStrip (cellText c))) then
        match r.cells[ec]? with
        | none => r :: totalUpdateLoop pc ec amt rs
        | some _ => setCellAt r ec (updatedEstimateCell amt) :: rs
      else r :: totalUpdateLoop pc ec amt rs

/-- Reconciliation of one qualifying budget table (lines 150-271). -/
def reconcileTable (m : Dict) (t : Table) : Table :=
  match findCols (headerTexts t) with
  | (some pc, some ec) =>
    let pass1 := updateRemovePass m pc ec t.rows
    let tIdx := findTotalIdx pc pass1.1
    let rows3 := addMissingLoop pc ec t.grid tIdx pass1.2 m pass1.1
    let rows4 :=
      if keysOf m |>.contains "total" then
        match rows3 with
        | [] => []
        | hdr :: ds => hdr :: totalUpdateLoop pc ec ((dlookup "total" m).getD "") ds
      else rows3
    { t with rows := rows4 }
  | _ => t

/-- The table scan of `sync_budget_table`: the first qualifying table is
reconciled; the function returns immediately afterwards, so later tables
are untouched. -/
def syncGo (m : Dict) : List Table → List Table
  | [] => []
  | t :: ts => if qualifies t then reconcileTable m t :: ts else t :: syncGo m ts

/-- `sync_budget_table(doc, phase_mapping)`. -/
def syncBudgetTable (m : Dict) (doc : Document) : Document :=
  { doc with tables := syncGo m doc.tables }

/-! ## Specification-side definitions

These are written from the claims' words, for comparison with the
source-derived definitions above. -/

/-- The index of the last element satisfying `p` (the claims describe the
column scan as last-match-wins). -/
def lastIdxWhere (p : α → Bool) : List α → Option Nat
  | [] => none
  | x :: xs =>
    match lastIdxWhere p xs with
    | some j => some (j + 1)
    | none => if p x then some 0 else none

/-- The budget-table heuristic exactly as C8 words it: at least 2 rows, a
header row of at least 3 cells, a header cell containing `"phase"` and a
header cell containing `"estimate"` or `"cost"` (with no requirement that
the latter cell be free of `"phase"`). -/
def claimHeuristic (t : Table) : Bool :=
  2 ≤ t.rows.length &&
    (match t.rows with
     | [] => false
     | hdr :: _ => 3 ≤ hdr.cells.length) &&
    (headerTexts t).any (fun h => substrB "phase" h) &&
    (headerTexts t).any (fun h => substrB "estimate" h || substrB "cost" h)

/-- The formatted amount exactly as C3 words it: `"$"` followed by
`floor(amount)` with thousands separators. -/
def specFloorFormat (q : ℚ) : String := "$" ++ pyIntComma ⌊q⌋

/-- The rational `-1/2` given by its reduced numerator and denominator, so
that the kernel can evaluate functions of its fields. -/
def negHalf : ℚ := ⟨-1, 2, by decide, by exact Nat.coprime_one_left 2⟩

/-- The lowercased stripped phase-column texts of the data rows of a
table (the quantity C1 speaks about). -/
def dataPhaseLows (pc : Nat) (t : Table) : List String :=
  (t.rows.drop 1).filterMap
    (fun r => (r.cells[pc]?).map (fun c => pyLower (pyStrip (cellText c))))

/-- A one-run cell for building concrete example tables. -/
def mkCell (s : String) : Cell := ⟨[⟨[⟨s, false⟩], none⟩]⟩

/-- A row of one-run cells for building concrete example tables. -/
def mkRowOf (l : List String) : TableRow := ⟨l.map mkCell⟩

/-- A concrete example table from its grid width and cell texts. -/
def mkTableOf (grid : Nat) (rs : List (List String)) : Table := ⟨grid, rs.map mkRowOf⟩

/-- The rows kept by the update/remove pass, expressed per-row: matched
rows with the estimate cell updated, unmatched total rows unchanged, other
unmatched rows dropped (the characterization the lemmas establish). -/
def keptRows (m : Dict) (pc ec : Nat) (data : List TableRow) : List TableRow :=
  data.filterMap (fun r =>
    let step := processRow m pc ec r
    if step.2.2 then none else some step.1)

/-- The seen keys of the update pass, expressed per-row. -/
def seenKeys (m : Dict) (pc ec : Nat) (data : List TableRow) : List String :=
  data.filterMap (fun r => (processRow m pc ec r).2.1)

end SOWGen

namespace SOWGen

/-! ## General helper lemmas -/

theorem mapSelf_of_mem {l : List α} {f : α → α} (h : ∀ x ∈ l, f x = x) :
    l.map f = l := by
  induction l with
  | nil => rfl
  | cons x xs ih =>
    simp only [List.map_cons, h x (by simp)]
    rw [ih (fun y hy => h y (by simp [hy]))]

theorem insertAt_eq (j : Nat) (a : α) (l : List α) :
    insertAt j a l = l.take j ++ a :: l.drop j := by
  induction j generalizing l with
  | zero => simp [insertAt]
  | succ n ih =>
    cases l with
    | nil => simp [insertAt]
    | cons x xs => simp [insertAt, ih]

theorem eraseIdx_at_len (pre : List α) (x : α) (xs : List α) :
    (pre ++ x :: xs).eraseIdx pre.length = pre ++ xs := by
  induction pre with
  | nil => rfl
  | cons p ps ih => simpa [List.eraseIdx] using ih

/-! ## Dict lemmas -/

theorem dlookup_dictInsert_self (d : Dict) (k v : String) :
    dlookup k (dictInsert d k v) = some v := by
  induction d with
  | nil => simp [dictInsert, dlookup]
  | cons p rest ih =>
    obtain ⟨a, b⟩ := p
    by_cases h : a = k
    · subst h; simp [dictInsert, dlookup]
    · simp [dictInsert, dlookup, h, ih]

theorem dlookup_dictInsert_ne (d : Dict) (k k' v : String) (h : k' ≠ k) :
    dlookup k (dictInsert d k' v) = dlookup k d := by
  induction d with
  | nil => simp [dictInsert, dlookup, h]
  | cons p rest ih =>
    obtain ⟨a, b⟩ := p
    by_cases ha : a = k'
    · subst ha; simp [dictInsert, dlookup, h, ih]
    · simp [dictInsert, dlookup, ha, ih]

theorem mem_dictInsert {k v : String} {x : String × String} :
    ∀ {d : Dict}, x ∈ dictInsert d k v → x = (k, v) ∨ x ∈ d := by
  intro d
  induction d with
  | nil => intro h; simpa [dictInsert] using h
  | cons p rest ih =>
    obtain ⟨a, b⟩ := p
    intro h
    by_cases ha : a = k
    · subst ha
      simp only [dictInsert, if_pos rfl] at h
      simp only [reduceIte, List.mem_cons] at h
      rcases h with h | h
      · exact Or.inl h
      · exact Or.inr (List.mem_cons_of_mem _ h)
    · simp only [dictInsert, if_neg ha, List.mem_cons] at h
      rcases h with h | h
      · exact Or.inr (h ▸ List.mem_cons_self _ _)
      · rcases ih h with h' | h'
        · exact Or.inl h'
        · exact Or.inr (List.mem_cons_of_mem _ h')

/-! ## Column detection: characterization (claim C10) -/

theorem findColsAux_fst (hs : List String) : ∀ (i : Nat) (pc ec : Option Nat),
    (findColsAux i pc ec hs).1 =
      match lastIdxWhere (fun h => substrB "phase" h) hs with
      | some j => some (i + j)
      | none => pc := by
  induction hs with
  | nil => intro i pc ec; rfl
  | cons h hs ih =>
    intro i pc ec
    simp only [findColsAux, lastIdxWhere]
    by_cases hp : substrB "phase" h = true
    · rw [if_pos hp, ih]
      cases hj : lastIdxWhere (fun x => substrB "phase" x) hs <;>
        simp [hj, hp] <;> omega
    · rw [if_neg hp]
      by_cases he : (substrB "estimate" h || substrB "cost" h) = true
      · rw [if_pos he, ih]
        cases hj : lastIdxWhere (fun x => substrB "phase" x) hs <;>
          simp [hj, hp] <;> omega
      · rw [if_neg he, ih]
        cases hj : lastIdxWhere (fun x => substrB "phase" x) hs <;>
          simp [hj, hp] <;> omega

theorem findColsAux_snd (hs : List String) : ∀ (i : Nat) (pc ec : Option Nat),
    (findColsAux i pc ec hs).2 =
      match lastIdxWhere
          (fun h => !substrB "phase" h && (substrB "estimate" h || substrB "cost" h)) hs with
      | some j => some (i + j)
      | none => ec := by
  induction hs with
  | nil => intro i pc ec; rfl
  | cons h hs ih =>
    intro i pc ec
    simp only [findColsAux, lastIdxWhere]
    by_cases hp : substrB "phase" h = true
    · rw [if_pos hp, ih]
      cases hj : lastIdxWhere
          (fun x => !substrB "phase" x && (substrB "estimate" x || substrB "cost" x)) hs <;>
        simp [hj, hp] <;> omega
    · rw [if_neg hp]
      by_cases he : (substrB "estimate" h || substrB "cost" h) = true
      · rw [if_pos he, ih]
        cases hj : lastIdxWhere
            (fun x => !substrB "phase" x && (substrB "estimate" x || substrB "cost" x)) hs <;>
          simp [hj, hp, he] <;> omega
      · rw [if_neg he, ih]
        cases hj : lastIdxWhere
            (fun x => !substrB "phase" x && (substrB "estimate" x || substrB "cost" x)) hs <;>
          simp [hj, hp, he] <;> omega

/-- C10: in budget-table column detection each header cell is tested for
`"phase"` first and for `"estimate"`/`"cost"` only when it does not contain
`"phase"`, so a cell containing both counts only towards the phase column;
and since the scan does not stop at the first hit, the column recorded for
each pattern is the index of the last matching cell.  Formally, `findCols`
returns the last index containing `"phase"` and the last index satisfying
`not "phase" and ("estimate" or "cost")`. -/
theorem claim_C10_lastMatch_elif (hs : List String) :
    findCols hs =
      (lastIdxWhere (fun h => substrB "phase" h) hs,
       lastIdxWhere
         (fun h => !substrB "phase" h && (substrB "estimate" h || substrB "cost" h)) hs) := by
  rw [findCols, Prod.ext_iff]
  refine ⟨?_, ?_⟩
  · rw [findColsAux_fst]
    cases hj : lastIdxWhere (fun h => substrB "phase" h) hs <;> simp [hj]
  · rw [findColsAux_snd]
    cases hj : lastIdxWhere
        (fun h => !substrB "phase" h && (substrB "estimate" h || substrB "cost" h)) hs <;>
      simp [hj]

/-! ## Budget amount formatting (claim C3) -/

theorem truncQ_eq_floor_of_nonneg (q : ℚ) (hq : 0 ≤ q) : truncQ q = ⌊q⌋ := by
  have hnum : 0 ≤ q.num := Rat.num_nonneg.mpr hq
  have hden0 : 0 < q.den := q.pos
  have hden : (0 : ℚ) < (q.den : ℚ) := by exact_mod_cast hden0
  set a := q.num.toNat with ha
  set b := q.den with hb
  rw [truncQ, if_pos hnum]
  symm
  set c := a / b with hc
  rw [Int.floor_eq_iff]
  have hq' : ((a : Int) : ℚ) / (b : ℚ) = q := by
    rw [ha, hb, Int.toNat_of_nonneg hnum]
    exact Rat.num_div_den q
  constructor
  · rw [← hq', le_div_iff₀ hden]
    have h1 : c * b ≤ a := by rw [hc]; exact Nat.div_mul_le_self _ _
    exact_mod_cast h1
  · rw [← hq', div_lt_iff₀ hden]
    have h1 : a < (c + 1) * b := by
      rw [hc]
      have h2 := Nat.div_add_mod a b
      have h3 := Nat.mod_lt a hden0
      calc a = b * (a / b) + a % b := h2.symm
        _ < b * (a / b) + b := by omega
        _ = (a / b + 1) * b := by ring
    exact_mod_cast h1

theorem mem_processBudgetAux {rows : List BudgetRow} :
    ∀ {i : Nat} {d : Dict} {p : String × String},
      p ∈ processBudgetAux i d rows →
      p ∈ d ∨ ∃ r ∈ rows, p = (pyLower (pyStrip r.1), storedAmount r.2) := by
  induction rows with
  | nil => intro i d p h; exact Or.inl h
  | cons r rest ih =>
    intro i d p h
    obtain ⟨ph, am⟩ := r
    simp only [processBudgetAux] at h
    by_cases hc : (pyStrip ph = "" ∨ pyLower (pyStrip ph) = "nan" ∨
        pyLower (pyStrip ph) = "" ∨ i = 0)
    · rw [if_pos hc] at h
      rcases ih h with h' | ⟨r', hr', he⟩
      · exact Or.inl h'
      · exact Or.inr ⟨r', List.mem_cons_of_mem _ hr', he⟩
    · rw [if_neg hc] at h
      rcases ih h with h' | ⟨r', hr', he⟩
      · rcases mem_dictInsert h' with he' | hd
        · exact Or.inr ⟨(ph, am), List.mem_cons_self _ _, he'⟩
        · exact Or.inl hd
      · exact Or.inr ⟨r', List.mem_cons_of_mem _ hr', he⟩

/-- C3 counterexample: the claim says the stored amount is
`"$" ++ floor(amount)` with separators.  For the numerically coercible
amount `-1/2` the code stores `int(-0.5) = 0`, i.e. `"$0"`, while the
claimed `floor(-1/2) = -1` would give `"$-1"`, so the claim fails at this
input. -/
theorem claim_C3_counterexample :
    negHalf = -1/2 ∧
    processBudgetSheet [("Header", Amount.missing), ("x", Amount.numeric negHalf)] =
        [("x", "$0")] ∧
      specFloorFormat negHalf = "$-1" ∧ ("$0" : String) ≠ "$-1" := by
  have hneg : negHalf = -1/2 := by
    rw [negHalf, Rat.mk'_eq_divInt]
    norm_num [Rat.divInt_eq_div]
  refine ⟨hneg, by decide, ?_, by decide⟩
  have h : ⌊negHalf⌋ = -1 := by rw [hneg]; norm_num
  rw [specFloorFormat, h]
  decide

/-- C3 (amended): every entry of the `phase_mapping` built from the Budget
sheet comes from a sheet row as its lowercased stripped phase paired with
its stored amount; a numerically coercible amount `q` is stored as `"$"`
followed by `q` truncated toward zero (Python `int()`) with thousands
separators, which agrees with the claimed `floor` exactly when `q` is
nonnegative; absent, blank, and uncoercible amounts store the empty
string. -/
theorem claim_C3_amended_truncation (rows : List BudgetRow) (p : String × String)
    (hp : p ∈ processBudgetSheet rows) :
    (∃ r ∈ rows, p = (pyLower (pyStrip r.1), storedAmount r.2)) ∧
    (∀ q : ℚ, storedAmount (Amount.numeric q) = "$" ++ pyIntComma (truncQ q)) ∧
    (∀ q : ℚ, 0 ≤ q → storedAmount (Amount.numeric q) = specFloorFormat q) ∧
    storedAmount Amount.missing = "" ∧ storedAmount Amount.blank = "" ∧
    (∀ s, storedAmount (Amount.junk s) = "") := by
  refine ⟨?_, fun q => rfl, ?_, rfl, rfl, fun s => rfl⟩
  · rcases mem_processBudgetAux hp with h | h
    · cases h
    · exact h
  · intro q hq
    simp [storedAmount, specFloorFormat, truncQ_eq_floor_of_nonneg q hq]

/-- Witness for the amended C3 at a concrete sheet. -/
theorem claim_C3_amended_witness :
    ∃ r ∈ [(("Header" : String), Amount.missing), ("Build", Amount.numeric 15000)],
      (("build", "$15,000") : String × String) =
        (pyLower (pyStrip r.1), storedAmount r.2) :=
  (claim_C3_amended_truncation
    [("Header", Amount.missing), ("Build", Amount.numeric 15000)]
    ("build", "$15,000") (by decide)).1

/-! ## Placeholder merge (claim C5) -/

theorem dlookup_append (k : String) (x y : Dict) :
    dlookup k (x ++ y) = (dlookup k x).or (dlookup k y) := by
  induction x with
  | nil => simp [dlookup]
  | cons p rest ih =>
    obtain ⟨a, b⟩ := p
    by_cases hk : a = k <;> simp [dlookup, hk, ih]

theorem dlookup_eq_none_of_not_mem {k : String} {d : Dict}
    (h : k ∉ keysOf d) : dlookup k d = none := by
  induction d with
  | nil => rfl
  | cons p rest ih =>
    obtain ⟨a, b⟩ := p
    simp only [keysOf, List.map_cons, List.mem_cons] at h
    push_neg at h
    have hak : ¬a = k := fun hh => h.1 hh.symm
    simp only [dlookup, if_neg hak]
    exact ih (by simpa [keysOf] using h.2)

theorem keysOf_dictInsert (d : Dict) (k v : String) :
    keysOf (dictInsert d k v) = if k ∈ keysOf d then keysOf d else keysOf d ++ [k] := by
  induction d with
  | nil => simp [dictInsert, keysOf]
  | cons p rest ih =>
    obtain ⟨a, b⟩ := p
    by_cases ha : a = k
    · subst ha
      simp [dictInsert, keysOf]
    · have hak : ¬k = a := fun hh => ha hh.symm
      have hcons : ∀ (q : String × String) (d' : Dict), keysOf (q :: d') = q.1 :: keysOf d' :=
        fun q d' => rfl
      simp only [dictInsert, if_neg ha, hcons, ih]
      by_cases hm : k ∈ keysOf rest
      · rw [if_pos hm, if_pos (List.mem_cons_of_mem _ hm)]
      · rw [if_neg hm, if_neg (by simp [hak, hm]), List.cons_append]

theorem nodup_keysOf_dictInsert {d : Dict} (hd : (keysOf d).Nodup) (k v : String) :
    (keysOf (dictInsert d k v)).Nodup := by
  rw [keysOf_dictInsert]
  by_cases hm : k ∈ keysOf d
  · rw [if_pos hm]; exact hd
  · rw [if_neg hm, List.nodup_append]
    exact ⟨hd, List.nodup_singleton k, by simpa using hm⟩

theorem nodup_keysOf_budgetFold (m : Dict) :
    ∀ d : Dict, (keysOf d).Nodup → (keysOf (m.foldl budgetStep d)).Nodup := by
  induction m with
  | nil => intro d hd; exact hd
  | cons p rest ih =>
    intro d hd
    rw [List.foldl_cons]
    apply ih
    rw [budgetStep]
    by_cases hp : p.1 = "total"
    · rw [if_pos hp]
      exact nodup_keysOf_dictInsert (nodup_keysOf_dictInsert hd _ _) _ _
    · rw [if_neg hp]
      exact nodup_keysOf_dictInsert hd _ _

theorem dlookup_budgetStep_not_gen {d : Dict} {k : String} {p : String × String}
    (h : k ∉ genPlaceholderKeys p) :
    dlookup k (budgetStep d p) = dlookup k d := by
  by_cases hp : p.1 = "total"
  · simp only [genPlaceholderKeys, if_pos hp, List.mem_cons] at h
    push_neg at h
    rw [budgetStep, if_pos hp, dlookup_dictInsert_ne _ _ _ _ (Ne.symm h.2.1),
      dlookup_dictInsert_ne _ _ _ _ (Ne.symm h.1)]
  · simp only [genPlaceholderKeys, if_neg hp, List.mem_singleton] at h
    rw [budgetStep, if_neg hp, dlookup_dictInsert_ne _ _ _ _ (Ne.symm h)]

theorem dlookup_budgetFold_untouched {k : String} (m : Dict)
    (hm : ∀ p ∈ m, k ∉ genPlaceholderKeys p) :
    ∀ d : Dict, dlookup k (m.foldl budgetStep d) = dlookup k d := by
  induction m with
  | nil => intro d; rfl
  | cons p rest ih =>
    intro d
    rw [List.foldl_cons,
      ih (fun x hx => hm x (List.mem_cons_of_mem _ hx)),
      dlookup_budgetStep_not_gen (hm p (List.mem_cons_self _ _))]

theorem dlookup_budgetStep_gen {d : Dict} {k : String} {p : String × String}
    (h : k ∈ genPlaceholderKeys p) :
    dlookup k (budgetStep d p) = some p.2 := by
  by_cases hp : p.1 = "total"
  · simp only [genPlaceholderKeys, if_pos hp, List.mem_cons, List.mem_singleton,
      List.not_mem_nil, or_false] at h
    rw [budgetStep, if_pos hp]
    rcases h with h | h
    · subst h
      rw [dlookup_dictInsert_ne _ _ _ _ (by decide), dlookup_dictInsert_self]
    · subst h
      rw [dlookup_dictInsert_self]
  · simp only [genPlaceholderKeys, if_neg hp, List.mem_singleton] at h
    subst h
    rw [budgetStep, if_neg hp, dlookup_dictInsert_self]

theorem dlookup_budgetPlaceholders_pos (m₁ m₂ : Dict) (p₀ : String × String)
    (k : String) (hk : k ∈ genPlaceholderKeys p₀)
    (h₂ : ∀ p ∈ m₂, k ∉ genPlaceholderKeys p) :
    dlookup k (budgetPlaceholders (m₁ ++ p₀ :: m₂)) = some p₀.2 := by
  rw [budgetPlaceholders, List.foldl_append, List.foldl_cons,
    dlookup_budgetFold_untouched m₂ h₂, dlookup_budgetStep_gen hk]

theorem dlookup_mergeDicts (v b : Dict) (hb : (keysOf b).Nodup) (k : String) :
    dlookup k (mergeDicts v b) = (dlookup k b).or (dlookup k v) := by
  induction b using List.reverseRecOn with
  | nil => simp [mergeDicts, dlookup]
  | append_singleton b' p ih =>
    obtain ⟨a, c⟩ := p
    have hkeys : keysOf (b' ++ [(a, c)]) = keysOf b' ++ [a] := by simp [keysOf]
    rw [hkeys] at hb
    rcases List.nodup_append.mp hb with ⟨hb', -, hdisj⟩
    have hna : a ∉ keysOf b' := fun hm => hdisj hm (by simp)
    have hstep : mergeDicts v (b' ++ [(a, c)]) = dictInsert (mergeDicts v b') a c := by
      rw [mergeDicts, mergeDicts, List.foldl_append, List.foldl_cons, List.foldl_nil]
    rw [hstep, dlookup_append]
    by_cases hk : a = k
    · subst hk
      rw [dlookup_dictInsert_self, dlookup_eq_none_of_not_mem hna]
      simp [dlookup]
    · rw [dlookup_dictInsert_ne _ _ _ _ hk, ih hb']
      simp [dlookup, hk]

/-- C5: the returned replacement map is the variable map merged with the
budget placeholders; for every key, lookup prefers the budget placeholder
value (budget wins on collision); a `"total"` phase contributes both
`{TOTAL}` and `{PROJECTTOTAL}` bound to its amount, and every other phase
contributes the key built by uppercasing it and deleting spaces and
ampersands, enclosed in braces — provided no later phase of the mapping
generates the same placeholder key. -/
theorem claim_C5_overlay_budget_wins (variableDict m : Dict) :
    processReplacements variableDict m =
        mergeDicts variableDict (budgetPlaceholders m) ∧
    (∀ k, dlookup k (processReplacements variableDict m) =
      (dlookup k (budgetPlaceholders m)).or (dlookup k variableDict)) ∧
    (∀ m₁ m₂ a, m = m₁ ++ ("total", a) :: m₂ →
      (∀ p ∈ m₂, "{TOTAL}" ∉ genPlaceholderKeys p ∧
        "{PROJECTTOTAL}" ∉ genPlaceholderKeys p) →
      dlookup "{TOTAL}" (budgetPlaceholders m) = some a ∧
      dlookup "{PROJECTTOTAL}" (budgetPlaceholders m) = some a) ∧
    (∀ m₁ m₂ ph a, m = m₁ ++ (ph, a) :: m₂ → ph ≠ "total" →
      (∀ p ∈ m₂, mkPlaceholderKey ph ∉ genPlaceholderKeys p) →
      dlookup (mkPlaceholderKey ph) (budgetPlaceholders m) = some a) := by
  refine ⟨rfl, ?_, ?_, ?_⟩
  · intro k
    exact dlookup_mergeDicts variableDict (budgetPlaceholders m)
      (nodup_keysOf_budgetFold m [] (by simp [keysOf])) k
  · intro m₁ m₂ a hm h₂
    subst hm
    constructor
    · exact dlookup_budgetPlaceholders_pos m₁ m₂ ("total", a) _
        (by simp [genPlaceholderKeys]) (fun p hp => (h₂ p hp).1)
    · exact dlookup_budgetPlaceholders_pos m₁ m₂ ("total", a) _
        (by simp [genPlaceholderKeys]) (fun p hp => (h₂ p hp).2)
  · intro m₁ m₂ ph a hm hph h₂
    subst hm
    exact dlookup_budgetPlaceholders_pos m₁ m₂ (ph, a) _
      (by simp [genPlaceholderKeys, hph]) h₂

/-- Witness for C5 at a concrete mapping: budget wins over the variable
entry for `{TOTAL}`, the total phase feeds both total placeholders, and
`discovery` yields `{DISCOVERY}` (the key built by `mkPlaceholderKey`). -/
theorem claim_C5_witness :
    dlookup "{TOTAL}" (processReplacements [("{TOTAL}", "old")]
        [("discovery", "$5,000"), ("total", "$20,000")]) = some "$20,000" ∧
    dlookup "{PROJECTTOTAL}"
        (budgetPlaceholders [("discovery", "$5,000"), ("total", "$20,000")]) =
      some "$20,000" ∧
    dlookup (mkPlaceholderKey "discovery")
        (budgetPlaceholders [("discovery", "$5,000"), ("total", "$20,000")]) =
      some "$5,000" := by
  have h := claim_C5_overlay_budget_wins [("{TOTAL}", "old")]
    [("discovery", "$5,000"), ("total", "$20,000")]
  refine ⟨?_, ?_, ?_⟩
  · rw [h.2.1 "{TOTAL}",
      (h.2.2.1 [("discovery", "$5,000")] [] "$20,000" rfl (by decide)).1]
    rfl
  · exact (h.2.2.1 [("discovery", "$5,000")] [] "$20,000" rfl (by decide)).2
  · exact h.2.2.2 [] [("total", "$20,000")] "discovery" "$5,000" rfl (by decide)
      (by decide)
/-! ## Text substitution: idempotence (claim C6) -/

theorem foldlReplace_id (s : String) : ∀ reps : Dict,
    (∀ kv ∈ reps, substrB kv.1 s = false) →
    reps.foldl (fun t kv => if substrB kv.1 t then pyReplace t kv.1 kv.2 else t) s = s := by
  intro reps
  induction reps with
  | nil => intro _; rfl
  | cons kv rest ih =>
    intro h
    rw [List.foldl_cons]
    have h0 : substrB kv.1 s = false := h kv (List.mem_cons_self _ _)
    rw [if_neg (by simp [h0])]
    exact ih (fun x hx => h x (List.mem_cons_of_mem _ hx))

theorem substitutePara_id {reps : Dict} {p : Paragraph}
    (h : ∀ kv ∈ reps, substrB kv.1 (paraText p) = false) :
    substitutePara reps p = p := by
  rw [substitutePara]
  simp [foldlReplace_id (paraText p) reps h]

theorem docKeyFree_texts {reps : Dict} {doc : Document}
    (h : docKeyFree reps doc = true) :
    ∀ t ∈ allTexts doc, ∀ kv ∈ reps, substrB kv.1 t = false := by
  intro t ht kv hkv
  rw [docKeyFree, List.all_eq_true] at h
  have h1 := h t ht
  rw [List.all_eq_true] at h1
  simpa using h1 kv hkv

theorem replaceTextInDoc_id {reps : Dict} {doc : Document}
    (h : docKeyFree reps doc = true) : replaceTextInDoc reps doc = doc := by
  have hx := docKeyFree_texts h
  obtain ⟨ps, ts⟩ := doc
  rw [replaceTextInDoc]
  simp only [Document.mk.injEq]
  constructor
  · apply mapSelf_of_mem
    intro p hp
    apply substitutePara_id
    intro kv hkv
    refine hx (paraText p) ?_ kv hkv
    simp only [allTexts]
    exact List.mem_append_left _ (List.mem_map_of_mem _ hp)
  · apply mapSelf_of_mem
    intro t htb
    have hrows : t.rows.map (fun row =>
        (⟨row.cells.map (fun c => ⟨c.paragraphs.map (substitutePara reps)⟩)⟩ : TableRow)) =
        t.rows := by
      apply mapSelf_of_mem
      intro row hrow
      obtain ⟨cells⟩ := row
      have hcells : cells.map (fun c => (⟨c.paragraphs.map (substitutePara reps)⟩ : Cell)) =
          cells := by
        apply mapSelf_of_mem
        intro c hc
        obtain ⟨paras⟩ := c
        have hparas : paras.map (substitutePara reps) = paras := by
          apply mapSelf_of_mem
          intro q hq
          apply substitutePara_id
          intro kv hkv
          refine hx (paraText q) ?_ kv hkv
          simp only [allTexts]
          refine List.mem_append_right _ ?_
          exact List.mem_flatMap.mpr ⟨t, htb, List.mem_flatMap.mpr ⟨⟨cells⟩, hrow,
            List.mem_flatMap.mpr ⟨⟨paras⟩, hc, List.mem_map_of_mem paraText hq⟩⟩⟩
        simp [hparas]
      simp [hcells]
    rw [hrows]
/-- C6 counterexample: with the single replacement pair
`{A} -> {A}!` the claim's precondition holds vacuously (no key is a
substring of ANOTHER key's value), yet a second application of
`replace_text_in_doc` to the already-substituted one-paragraph document
`"{A}"` changes it again, because the key is a substring of its OWN
resolved value. -/
theorem claim_C6_counterexample :
    (∀ kv ∈ ([("{A}", "{A}!")] : Dict), ∀ kv' ∈ ([("{A}", "{A}!")] : Dict),
      kv.1 ≠ kv'.1 → substrB kv.1 kv'.2 = false) ∧
    replaceTextInDoc [("{A}", "{A}!")]
        (replaceTextInDoc [("{A}", "{A}!")]
          (⟨[⟨[⟨"{A}", false⟩], none⟩], []⟩ : Document)) ≠
      replaceTextInDoc [("{A}", "{A}!")]
        (⟨[⟨[⟨"{A}", false⟩], none⟩], []⟩ : Document) := by
  constructor
  · intro kv hkv kv' hkv' hne
    simp only [List.mem_singleton] at hkv hkv'
    subst hkv; subst hkv'
    exact absurd rfl hne
  · decide

/-- C6 (amended): substitution is idempotent under the precondition that
the first application leaves no occurrence of any replacement key in any
paragraph or table-cell text of the document (which holds in particular
when no key is a substring of any present key's resolved value, its own
included, and no replacement splices a key together from surrounding
text). -/
theorem claim_C6_amended_idempotent (reps : Dict) (doc : Document)
    (h : docKeyFree reps (replaceTextInDoc reps doc) = true) :
    replaceTextInDoc reps (replaceTextInDoc reps doc) = replaceTextInDoc reps doc :=
  replaceTextInDoc_id h

/-- Witness for the amended C6: a concrete substitution whose first pass
eliminates every key, and which is therefore idempotent. -/
theorem claim_C6_amended_witness :
    replaceTextInDoc [("{A}", "Acme")]
        (replaceTextInDoc [("{A}", "Acme")]
          (⟨[⟨[⟨"Client: {A}", false⟩], none⟩],
            [⟨1, [⟨[⟨[⟨[⟨"{A}", true⟩], some PAlign.center⟩]⟩]⟩]⟩]⟩ : Document)) =
      replaceTextInDoc [("{A}", "Acme")]
        (⟨[⟨[⟨"Client: {A}", false⟩], none⟩],
          [⟨1, [⟨[⟨[⟨[⟨"{A}", true⟩], some PAlign.center⟩]⟩]⟩]⟩]⟩ : Document) :=
  claim_C6_amended_idempotent _ _ (by decide)
/-! ## Date normalization (claim C7) -/

theorem digitChar_isDigit_of_lt {k : Nat} (h : k < 10) : (Nat.digitChar k).isDigit = true := by
  interval_cases k <;> decide

theorem charDigitVal_digitChar {k : Nat} (h : k < 10) : charDigitVal (Nat.digitChar k) = k := by
  interval_cases k <;> decide

theorem parse4D_fmt (y : Nat) (hy : y ≤ 9999) (rest : List Char) :
    parse4D (Nat.digitChar (y / 1000 % 10) :: Nat.digitChar (y / 100 % 10) ::
      Nat.digitChar (y / 10 % 10) :: Nat.digitChar (y % 10) :: rest) = some (y, rest) := by
  have h1 : y / 1000 % 10 < 10 := by omega
  have h2 : y / 100 % 10 < 10 := by omega
  have h3 : y / 10 % 10 < 10 := by omega
  have h4 : y % 10 < 10 := by omega
  rw [parse4D]
  rw [if_pos (by simp [digitChar_isDigit_of_lt, h1, h2, h3, h4])]
  simp only [charDigitVal_digitChar, h1, h2, h3, h4, Option.some.injEq, Prod.mk.injEq]
  exact ⟨by omega, trivial⟩

theorem parseMD_fmt (m : Nat) (hm1 : 1 ≤ m) (hm2 : m ≤ 12) (rest : List Char) :
    parseMD (Nat.digitChar (m / 10 % 10) :: Nat.digitChar (m % 10) :: rest) = some (m, rest) := by
  interval_cases m <;> rfl

theorem parseDD_fmt (d : Nat) (hd1 : 1 ≤ d) (hd2 : d ≤ 31) (rest : List Char) :
    parseDD (Nat.digitChar (d / 10 % 10) :: Nat.digitChar (d % 10) :: rest) = some (d, rest) := by
  interval_cases d <;> rfl

theorem daysInMonth_le_31 (y m : Nat) : daysInMonth y m ≤ 31 := by
  rw [daysInMonth]
  split_ifs <;> omega

theorem dateOK_true (y m d : Nat) (hy1 : 1 ≤ y) (hy2 : y ≤ 9999)
    (hm1 : 1 ≤ m) (hm2 : m ≤ 12) (hd1 : 1 ≤ d) (hd2 : d ≤ daysInMonth y m) :
    dateOK y m d = true := by
  simp only [dateOK, Bool.and_eq_true, decide_eq_true_eq]
  omega

theorem parseYMD_fmt (y m d : Nat) (hy1 : 1 ≤ y) (hy2 : y ≤ 9999)
    (hm1 : 1 ≤ m) (hm2 : m ≤ 12) (hd1 : 1 ≤ d) (hd2 : d ≤ daysInMonth y m) :
    parseYMD (fmtYMD y m d) = some (y, m, d) := by
  have hd31 : d ≤ 31 := le_trans hd2 (daysInMonth_le_31 y m)
  rw [parseYMD]
  show parseYMDList (Nat.digitChar (y / 1000 % 10) :: Nat.digitChar (y / 100 % 10) ::
      Nat.digitChar (y / 10 % 10) :: Nat.digitChar (y % 10) :: '-' ::
      Nat.digitChar (m / 10 % 10) :: Nat.digitChar (m % 10) :: '-' ::
      Nat.digitChar (d / 10 % 10) :: Nat.digitChar (d % 10) :: []) = some (y, m, d)
  rw [parseYMDList, parse4D_fmt y hy2]
  simp only [Option.bind_eq_bind, Option.some_bind, expectCh, beq_self_eq_true, if_true]
  rw [parseMD_fmt m hm1 hm2]
  simp only [Option.some_bind, expectCh, beq_self_eq_true, if_true]
  rw [parseDD_fmt d hd1 hd31]
  simp only [Option.some_bind]
  simp [dateOK_true y m d hy1 hy2 hm1 hm2 hd1 hd2]

theorem leadsWith_refl (p : List Char) : leadsWith p p = true := by
  induction p with
  | nil => rfl
  | cons c cs ih => simp [leadsWith, ih]

theorem occursIn_suffix (p : List Char) : ∀ l : List Char, occursIn p (l ++ p) = true := by
  intro l
  induction l with
  | nil =>
    cases p with
    | nil => rfl
    | cons c cs => simp [occursIn, leadsWith_refl]
  | cons b bs ih => simp [occursIn, ih]

theorem occursIn_head_mem {c : Char} {p l : List Char}
    (h : occursIn (c :: p) l = true) : c ∈ l := by
  induction l with
  | nil => simp [occursIn] at h
  | cons b bs ih =>
    simp only [occursIn, Bool.or_eq_true] at h
    rcases h with h | h
    · simp only [leadsWith, Bool.and_eq_true, beq_iff_eq] at h
      exact h.1 ▸ List.mem_cons_self _ _
    · exact List.mem_cons_of_mem _ (ih h)

theorem occursIn_singleton_of_mem {c : Char} {l : List Char}
    (h : c ∈ l) : occursIn [c] l = true := by
  induction l with
  | nil => cases h
  | cons b bs ih =>
    rcases List.mem_cons.mp h with h' | h'
    · subst h'
      simp [occursIn, leadsWith]
    · simp [occursIn, ih h']

theorem space_not_mem_fmtYMD (y m d : Nat) : ¬ (' ' ∈ (fmtYMD y m d).toList) := by
  have hne : ∀ k : Nat, k < 10 → ¬(' ' = Nat.digitChar k) := by
    intro k hk
    interval_cases k <;> decide
  intro hmem
  simp only [fmtYMD, String.toList, List.mem_cons, List.not_mem_nil, or_false] at hmem
  rcases hmem with h|h|h|h|h|h|h|h|h|h
  · exact hne _ (by omega) h
  · exact hne _ (by omega) h
  · exact hne _ (by omega) h
  · exact hne _ (by omega) h
  · exact absurd h (by decide)
  · exact hne _ (by omega) h
  · exact hne _ (by omega) h
  · exact absurd h (by decide)
  · exact hne _ (by omega) h
  · exact hne _ (by omega) h

theorem substrB_00_fmtYMD (y m d : Nat) : substrB " 00:00:00" (fmtYMD y m d) = false := by
  rw [substrB]
  cases hoc : occursIn (" 00:00:00".toList) ((fmtYMD y m d).toList)
  · rfl
  · exfalso
    have hshape : " 00:00:00".toList = ' ' :: "00:00:00".toList := rfl
    rw [hshape] at hoc
    exact space_not_mem_fmtYMD y m d (occursIn_head_mem hoc)

theorem dash_mem_fmtYMD (y m d : Nat) : substrB "-" (fmtYMD y m d) = true := by
  rw [substrB]
  have hshape : "-".toList = ['-'] := rfl
  rw [hshape]
  apply occursIn_singleton_of_mem
  simp [fmtYMD, String.toList]

theorem fmtYMD_ne_nan (y m d : Nat) : ¬(fmtYMD y m d = "nan" ∨ fmtYMD y m d = "") := by
  have hlen : (fmtYMD y m d).length = 10 := rfl
  rintro (h | h)
  · have hl := congrArg String.length h
    rw [hlen] at hl
    exact absurd hl (by decide)
  · have hl := congrArg String.length h
    rw [hlen] at hl
    exact absurd hl (by decide)

theorem normalize_fmtYMD (y m d : Nat) (hy1 : 1 ≤ y) (hy2 : y ≤ 9999)
    (hm1 : 1 ≤ m) (hm2 : m ≤ 12) (hd1 : 1 ≤ d) (hd2 : d ≤ daysInMonth y m) :
    normalizeDateValue (fmtYMD y m d) = strftimeDMonY y m d := by
  rw [normalizeDateValue, if_neg (fmtYMD_ne_nan y m d),
    if_neg (by simp [substrB_00_fmtYMD]),
    if_pos ⟨rfl, dash_mem_fmtYMD y m d⟩,
    parseYMD_fmt y m d hy1 hy2 hm1 hm2 hd1 hd2]
theorem strptimeFull_fmt (y m d : Nat) (hy1 : 1 ≤ y) (hy2 : y ≤ 9999)
    (hm1 : 1 ≤ m) (hm2 : m ≤ 12) (hd1 : 1 ≤ d) (hd2 : d ≤ daysInMonth y m) :
    strptimeFull (fmtYMD y m d ++ " 00:00:00") = some (y, m, d) := by
  have hd31 : d ≤ 31 := le_trans hd2 (daysInMonth_le_31 y m)
  have hlist : (fmtYMD y m d ++ " 00:00:00").toList =
      Nat.digitChar (y / 1000 % 10) :: Nat.digitChar (y / 100 % 10) ::
      Nat.digitChar (y / 10 % 10) :: Nat.digitChar (y % 10) :: '-' ::
      Nat.digitChar (m / 10 % 10) :: Nat.digitChar (m % 10) :: '-' ::
      Nat.digitChar (d / 10 % 10) :: Nat.digitChar (d % 10) :: ' ' :: '0' :: '0' ::
      ':' :: '0' :: '0' :: ':' :: '0' :: '0' :: [] := rfl
  simp only [strptimeFull]
  rw [hlist, parse4D_fmt y hy2]
  simp only [Option.bind_eq_bind, Option.some_bind, expectCh, beq_self_eq_true, if_true]
  rw [parseMD_fmt m hm1 hm2]
  simp only [Option.some_bind, expectCh, beq_self_eq_true, if_true]
  rw [parseDD_fmt d hd1 hd31]
  simp only [Option.some_bind]
  simp [expectCh, parseHH, parseMS, charDigitVal,
    dateOK_true y m d hy1 hy2 hm1 hm2 hd1 hd2]

theorem fmtYMD_midnight_ne_nan (y m d : Nat) :
    ¬(fmtYMD y m d ++ " 00:00:00" = "nan" ∨ fmtYMD y m d ++ " 00:00:00" = "") := by
  have hlen : (fmtYMD y m d ++ " 00:00:00").length = 19 := rfl
  rintro (h | h)
  · have hl := congrArg String.length h
    rw [hlen] at hl
    exact absurd hl (by decide)
  · have hl := congrArg String.length h
    rw [hlen] at hl
    exact absurd hl (by decide)

theorem substrB_00_midnight (y m d : Nat) :
    substrB " 00:00:00" (fmtYMD y m d ++ " 00:00:00") = true := by
  rw [substrB]
  have hshape : (fmtYMD y m d ++ " 00:00:00").toList =
      (fmtYMD y m d).toList ++ " 00:00:00".toList := rfl
  rw [hshape]
  exact occursIn_suffix _ _

theorem normalize_fmtYMD_midnight (y m d : Nat) (hy1 : 1 ≤ y) (hy2 : y ≤ 9999)
    (hm1 : 1 ≤ m) (hm2 : m ≤ 12) (hd1 : 1 ≤ d) (hd2 : d ≤ daysInMonth y m) :
    normalizeDateValue (fmtYMD y m d ++ " 00:00:00") = strftimeDMonY y m d := by
  rw [normalizeDateValue, if_neg (fmtYMD_midnight_ne_nan y m d),
    if_pos (substrB_00_midnight y m d),
    strptimeFull_fmt y m d hy1 hy2 hm1 hm2 hd1 hd2]

theorem normalize_parse_fail {v : String} (hfull : strptimeFull v = none)
    (hymd : parseYMD v = none) : normalizeDateValue v = v := by
  rw [normalizeDateValue]
  split_ifs <;> simp [hfull, hymd]

/-- C7: a Variables-sheet string value of the exact form `YYYY-MM-DD`
denoting a valid calendar date, or of the form `YYYY-MM-DD 00:00:00`
(midnight), is extracted as the same calendar date reformatted
`DD-Mon-YY`; the whole mapping is normalized value by value; and any value
on which the date parse fails is retained unchanged (no error is
possible — the normalization is a total function). -/
theorem claim_C7_date_normalization (d : Dict) (kv : String × String)
    (y mo dy : Nat) (hy1 : 1 ≤ y) (hy2 : y ≤ 9999) (hm1 : 1 ≤ mo) (hm2 : mo ≤ 12)
    (hd1 : 1 ≤ dy) (hd2 : dy ≤ daysInMonth y mo) :
    (kv ∈ d → (kv.1, normalizeDateValue kv.2) ∈ processVariables d) ∧
    normalizeDateValue (fmtYMD y mo dy) = strftimeDMonY y mo dy ∧
    normalizeDateValue (fmtYMD y mo dy ++ " 00:00:00") = strftimeDMonY y mo dy ∧
    (∀ w : String, strptimeFull w = none → parseYMD w = none →
      normalizeDateValue w = w) := by
  refine ⟨?_, normalize_fmtYMD y mo dy hy1 hy2 hm1 hm2 hd1 hd2,
    normalize_fmtYMD_midnight y mo dy hy1 hy2 hm1 hm2 hd1 hd2,
    fun w h1 h2 => normalize_parse_fail h1 h2⟩
  intro hkv
  exact List.mem_map_of_mem _ hkv

/-- Witness for C7 at the concrete date 2025-08-13 and at a value that
fails to parse. -/
theorem claim_C7_witness :
    normalizeDateValue (fmtYMD 2025 8 13) = strftimeDMonY 2025 8 13 ∧
    normalizeDateValue (fmtYMD 2025 8 13 ++ " 00:00:00") = strftimeDMonY 2025 8 13 ∧
    normalizeDateValue "2025-13-45" = "2025-13-45" := by
  have h := claim_C7_date_normalization [] ("k", "v") 2025 8 13
    (by decide) (by decide) (by decide) (by decide) (by decide) (by decide)
  exact ⟨h.2.1, h.2.2.1, h.2.2.2 "2025-13-45" (by decide) (by decide)⟩
/-! ## Update/remove pass characterization -/

theorem removeMarked_cons (rows : List TableRow) (i : Nat) (marks : List Nat) :
    removeMarked rows (i :: marks) = (removeMarked rows marks).eraseIdx i := by
  rw [removeMarked, removeMarked, List.reverse_cons, List.foldl_append]
  rfl

theorem keptRows_cons (m : Dict) (pc ec : Nat) (r : TableRow) (rs : List TableRow) :
    keptRows m pc ec (r :: rs) =
      if (processRow m pc ec r).2.2 then keptRows m pc ec rs
      else (processRow m pc ec r).1 :: keptRows m pc ec rs := by
  rw [keptRows, keptRows, List.filterMap_cons]
  cases hflag : (processRow m pc ec r).2.2 <;> simp [hflag]

theorem removeMarked_updateLoop (m : Dict) (pc ec : Nat) :
    ∀ (data : List TableRow) (i : Nat) (pre : List TableRow), pre.length = i →
      removeMarked (pre ++ (updateLoop m pc ec i data).1) (updateLoop m pc ec i data).2.1 =
        pre ++ keptRows m pc ec data := by
  intro data
  induction data with
  | nil => intro i pre hpre; simp [updateLoop, removeMarked, keptRows]
  | cons r rs ih =>
    intro i pre hpre
    simp only [updateLoop, keptRows_cons]
    have hsplit : pre ++ (processRow m pc ec r).1 :: (updateLoop m pc ec (i + 1) rs).1 =
        (pre ++ [(processRow m pc ec r).1]) ++ (updateLoop m pc ec (i + 1) rs).1 := by
      simp
    cases hflag : (processRow m pc ec r).2.2
    · simp only [hflag, Bool.false_eq_true, if_false, List.nil_append]
      rw [hsplit, ih (i + 1) (pre ++ [(processRow m pc ec r).1]) (by simp [hpre])]
      simp
    · simp only [hflag, if_true, List.singleton_append]
      rw [removeMarked_cons]
      rw [hsplit, ih (i + 1) (pre ++ [(processRow m pc ec r).1]) (by simp [hpre])]
      have hjoin : (pre ++ [(processRow m pc ec r).1]) ++ keptRows m pc ec rs =
          pre ++ (processRow m pc ec r).1 :: keptRows m pc ec rs := by
        simp
      rw [hjoin, ← hpre, eraseIdx_at_len]
theorem updateLoop_seen (m : Dict) (pc ec : Nat) :
    ∀ (data : List TableRow) (i : Nat),
      (updateLoop m pc ec i data).2.2 = seenKeys m pc ec data := by
  intro data
  induction data with
  | nil => intro i; rfl
  | cons r rs ih =>
    intro i
    simp only [updateLoop, seenKeys, List.filterMap_cons]
    cases hmk : (processRow m pc ec r).2.1 <;>
      simp [hmk, ih (i + 1), seenKeys]

theorem updateRemovePass_eq (m : Dict) (pc ec : Nat) (hdr : TableRow)
    (data : List TableRow) :
    updateRemovePass m pc ec (hdr :: data) =
      (hdr :: keptRows m pc ec data, seenKeys m pc ec data) := by
  rw [updateRemovePass]
  have h1 := removeMarked_updateLoop m pc ec data 1 [hdr] rfl
  simp only [List.singleton_append] at h1
  rw [h1, updateLoop_seen]

theorem processRow_bad {m : Dict} {pc ec : Nat} {row : TableRow}
    (h : row.cells[pc]? = none ∨ row.cells[ec]? = none) :
    processRow m pc ec row = (row, none, false) := by
  rw [processRow]
  rcases h with h | h
  · rw [h]
  · rw [h]
    cases row.cells[pc]? <;> rfl

theorem keptRows_append (m : Dict) (pc ec : Nat) (xs ys : List TableRow) :
    keptRows m pc ec (xs ++ ys) = keptRows m pc ec xs ++ keptRows m pc ec ys := by
  simp [keptRows, List.filterMap_append]

theorem seenKeys_append (m : Dict) (pc ec : Nat) (xs ys : List TableRow) :
    seenKeys m pc ec (xs ++ ys) = seenKeys m pc ec xs ++ seenKeys m pc ec ys := by
  simp [seenKeys, List.filterMap_append]

/-- C4: a data row on which cell access raises (malformed row shape — the
only exception the embedded row processing can produce) is skipped
unchanged: it is neither updated, nor matched, nor removed, and the rows
before and after it are processed exactly as they would be without it, so
no row-level failure aborts the update/remove pass (which is a total
function). -/
theorem claim_C4_row_error_skipped (m : Dict) (pc ec : Nat) (hdr bad : TableRow)
    (xs ys : List TableRow)
    (hbad : bad.cells[pc]? = none ∨ bad.cells[ec]? = none) :
    processRow m pc ec bad = (bad, none, false) ∧
    updateRemovePass m pc ec (hdr :: (xs ++ bad :: ys)) =
      (hdr :: (keptRows m pc ec xs ++ bad :: keptRows m pc ec ys),
       seenKeys m pc ec xs ++ seenKeys m pc ec ys) := by
  refine ⟨processRow_bad hbad, ?_⟩
  rw [updateRemovePass_eq, keptRows_append, seenKeys_append, keptRows_cons]
  rw [show seenKeys m pc ec (bad :: ys) = seenKeys m pc ec ys by
    simp [seenKeys, List.filterMap_cons, processRow_bad hbad]]
  rw [processRow_bad hbad]
  simp

/-- Witness for C4: a concrete malformed (too short) row between two well
formed rows is preserved while its neighbours are processed. -/
theorem claim_C4_witness :
    processRow [("alpha", "$1")] 0 2 (mkRowOf ["x"]) = (mkRowOf ["x"], none, false) ∧
    updateRemovePass [("alpha", "$1")] 0 2
        (mkRowOf ["Phase", "Desc", "Estimate"] ::
          ([mkRowOf ["alpha", "", ""]] ++ mkRowOf ["x"] :: [mkRowOf ["stale", "", ""]])) =
      (mkRowOf ["Phase", "Desc", "Estimate"] ::
        (keptRows [("alpha", "$1")] 0 2 [mkRowOf ["alpha", "", ""]] ++ mkRowOf ["x"] ::
          keptRows [("alpha", "$1")] 0 2 [mkRowOf ["stale", "", ""]]),
       seenKeys [("alpha", "$1")] 0 2 [mkRowOf ["alpha", "", ""]] ++
         seenKeys [("alpha", "$1")] 0 2 [mkRowOf ["stale", "", ""]]) :=
  claim_C4_row_error_skipped [("alpha", "$1")] 0 2
    (mkRowOf ["Phase", "Desc", "Estimate"]) (mkRowOf ["x"])
    [mkRowOf ["alpha", "", ""]] [mkRowOf ["stale", "", ""]] (by decide)
/-! ## Removal exemption and total-row detection (claim C9) -/

theorem findFirstMatch_none {m : Dict} {pl : String}
    (h : ∀ p ∈ m, substrB p.1 pl = false ∧ substrB pl p.1 = false) :
    findFirstMatch m pl = none := by
  rw [findFirstMatch]
  apply List.find?_eq_none.mpr
  intro p hp
  simp [(h p hp).1, (h p hp).2]

theorem processRow_unmatched {m : Dict} {pc ec : Nat} {row : TableRow}
    {pcell : Cell} (hpc : row.cells[pc]? = some pcell)
    (hec : ∃ ecell, row.cells[ec]? = some ecell)
    (hnm : ∀ p ∈ m, substrB p.1 (pyLower (pyStrip (cellText pcell))) = false ∧
      substrB (pyLower (pyStrip (cellText pcell))) p.1 = false) :
    processRow m pc ec row =
      if pyLower (pyStrip (cellText pcell)) = "total" ∨
          pyLower (pyStrip (cellText pcell)) = "estimated total" then
        (row, none, false)
      else (row, none, true) := by
  obtain ⟨ecell, hec⟩ := hec
  rw [processRow, hpc, hec]
  simp only [findFirstMatch_none hnm]

theorem findTotalAux_shift (pc : Nat) : ∀ (l : List TableRow) (i : Nat),
    findTotalAux pc (i + 1) l = Option.map (fun n => n + 1) (findTotalAux pc i l) := by
  intro l
  induction l with
  | nil => intro i; rfl
  | cons r rs ih =>
    intro i
    simp only [findTotalAux]
    cases hc : r.cells[pc]? with
    | none => exact ih (i + 1)
    | some c =>
      by_cases ht : substrB "total" (pyLower (pyStrip (cellText c))) = true
      · simp [ht]
      · simp [ht, ih (i + 1)]

/-- C9: an accessible data row that matches no `PhaseMapping` key is kept
by the update/remove pass exactly when its trimmed lowercased phase text is
the exact string `"total"` or `"estimated total"`; any other unmatched row
(including one merely containing `"total"`, such as `"grand total"`) is
removed — even though the subsequent total-row scan selects a row by mere
substring containment of `"total"`. -/
theorem claim_C9_total_exemption_exact (m : Dict) (pc ec : Nat) (hdr r : TableRow)
    (xs ys : List TableRow) (pcell : Cell)
    (hpc : r.cells[pc]? = some pcell) (hec : ∃ ecell, r.cells[ec]? = some ecell)
    (hnm : ∀ p ∈ m, substrB p.1 (pyLower (pyStrip (cellText pcell))) = false ∧
      substrB (pyLower (pyStrip (cellText pcell))) p.1 = false) :
    ((updateRemovePass m pc ec (hdr :: (xs ++ r :: ys))).1 =
      hdr :: (keptRows m pc ec xs ++
        (if pyLower (pyStrip (cellText pcell)) = "total" ∨
            pyLower (pyStrip (cellText pcell)) = "estimated total" then [r] else []) ++
        keptRows m pc ec ys)) ∧
    (∀ rest : List TableRow, findTotalIdx pc (hdr :: r :: rest) =
      if substrB "total" (pyLower (pyStrip (cellText pcell))) = true then some 1
      else Option.map (fun n => n + 1) (findTotalIdx pc (hdr :: rest))) := by
  constructor
  · rw [updateRemovePass_eq, keptRows_append, keptRows_cons,
      processRow_unmatched hpc hec hnm]
    by_cases hC : (pyLower (pyStrip (cellText pcell)) = "total" ∨
        pyLower (pyStrip (cellText pcell)) = "estimated total")
    · simp [hC]
    · simp [hC]
  · intro rest
    show findTotalAux pc 1 (r :: rest) = _
    rw [findTotalAux, hpc]
    by_cases ht : substrB "total" (pyLower (pyStrip (cellText pcell))) = true
    · simp [ht]
    · have hshift := findTotalAux_shift pc rest 1
      simp only [ht, if_false, Bool.not_eq_true] at *
      simp [ht, hshift, findTotalIdx]

/-- Witness for C9: with mapping `[alpha]`, the row `"grand total"`
(which contains but does not equal `"total"`) is removed, while the
total-row scan would select it. -/
theorem claim_C9_witness :
    ((updateRemovePass [("alpha", "$1")] 0 2
        (mkRowOf ["Phase", "Desc", "Estimate"] ::
          ([] ++ mkRowOf ["grand total", "", ""] :: []))).1 =
      mkRowOf ["Phase", "Desc", "Estimate"] ::
        (keptRows [("alpha", "$1")] 0 2 [] ++
          (if pyLower (pyStrip (cellText (mkCell "grand total"))) = "total" ∨
              pyLower (pyStrip (cellText (mkCell "grand total"))) = "estimated total" then
            [mkRowOf ["grand total", "", ""]]
          else []) ++ keptRows [("alpha", "$1")] 0 2 [])) ∧
    findTotalIdx 0 (mkRowOf ["Phase", "Desc", "Estimate"] ::
        mkRowOf ["grand total", "", ""] :: []) =
      (if substrB "total" (pyLower (pyStrip (cellText (mkCell "grand total")))) = true
       then some 1
       else Option.map (fun n => n + 1)
         (findTotalIdx 0 [mkRowOf ["Phase", "Desc", "Estimate"]])) := by
  have h := claim_C9_total_exemption_exact [("alpha", "$1")] 0 2
    (mkRowOf ["Phase", "Desc", "Estimate"]) (mkRowOf ["grand total", "", ""])
    [] [] (mkCell "grand total") (by decide) ⟨mkCell "", by decide⟩ (by decide)
  exact ⟨h.1, h.2 []⟩
/-! ## Table-scan frame (claim C8) -/

theorem syncGo_no_qualify (m : Dict) : ∀ ts : List Table,
    (∀ t ∈ ts, qualifies t = false) → syncGo m ts = ts := by
  intro ts
  induction ts with
  | nil => intro _; rfl
  | cons t ts ih =>
    intro h
    rw [syncGo, if_neg (by simp [h t (List.mem_cons_self _ _)]),
      ih (fun x hx => h x (List.mem_cons_of_mem _ hx))]

theorem syncGo_first_qualify (m : Dict) (q : Table) (ys : List Table)
    (hq : qualifies q = true) : ∀ xs : List Table,
    (∀ t ∈ xs, qualifies t = false) →
    syncGo m (xs ++ q :: ys) = xs ++ reconcileTable m q :: ys := by
  intro xs
  induction xs with
  | nil => intro _; simp [syncGo, hq]
  | cons x xs ih =>
    intro h
    rw [List.cons_append, syncGo, if_neg (by simp [h x (List.mem_cons_self _ _)]),
      ih (fun t ht => h t (List.mem_cons_of_mem _ ht))]
    simp

/-- C8 counterexample: the claim's heuristic only asks for a header cell
containing `"phase"` and a header cell containing `"estimate"`/`"cost"`.
The first table below (headers `Phase | Phase Cost | x`) satisfies that
heuristic, so by the claim it is the first qualifying table and every
other table stays untouched.  The code, however, skips it (its only
cost-bearing header also contains `"phase"`) and reconciles the second
table instead. -/
theorem claim_C8_counterexample :
    claimHeuristic (mkTableOf 3 [["Phase", "Phase Cost", "x"], ["stale", "", ""]]) =
        true ∧
    qualifies (mkTableOf 3 [["Phase", "Phase Cost", "x"], ["stale", "", ""]]) = false ∧
    (syncBudgetTable [("alpha", "$1")]
        ⟨[], [mkTableOf 3 [["Phase", "Phase Cost", "x"], ["stale", "", ""]],
          mkTableOf 3 [["Phase", "Estimate", "x"], ["stale", "", ""]]]⟩).tables[0]? =
      some (mkTableOf 3 [["Phase", "Phase Cost", "x"], ["stale", "", ""]]) ∧
    (syncBudgetTable [("alpha", "$1")]
        ⟨[], [mkTableOf 3 [["Phase", "Phase Cost", "x"], ["stale", "", ""]],
          mkTableOf 3 [["Phase", "Estimate", "x"], ["stale", "", ""]]]⟩).tables[1]? ≠
      some (mkTableOf 3 [["Phase", "Estimate", "x"], ["stale", "", ""]]) := by
  refine ⟨by decide, by decide, by decide, by decide⟩

/-- C8 (amended): with the heuristic corrected to require a header cell
containing `"estimate"` or `"cost"` but NOT `"phase"` (alongside a
`"phase"` cell, at least 2 rows and at least 3 header cells — the
`qualifies` test), the frame property holds: if no table qualifies the
document is returned unchanged (and no error is possible, the function is
total); if some table qualifies, exactly the first qualifying table is
replaced by its reconciliation and every other table and all body
paragraphs are untouched. -/
theorem claim_C8_amended_frame (m : Dict) (ps : List Paragraph)
    (ts xs ys : List Table) (q : Table) :
    ((∀ t ∈ ts, qualifies t = false) →
      syncBudgetTable m ⟨ps, ts⟩ = ⟨ps, ts⟩) ∧
    ((∀ t ∈ xs, qualifies t = false) → qualifies q = true →
      syncBudgetTable m ⟨ps, xs ++ q :: ys⟩ = ⟨ps, xs ++ reconcileTable m q :: ys⟩) := by
  constructor
  · intro h
    rw [syncBudgetTable]
    simp [syncGo_no_qualify m ts h]
  · intro h hq
    rw [syncBudgetTable]
    simp [syncGo_first_qualify m q ys hq xs h]

/-- Witness for the amended C8: a document with one non-qualifying and one
qualifying table. -/
theorem claim_C8_witness :
    syncBudgetTable [("alpha", "$1")]
        ⟨[], [mkTableOf 3 [["a", "b", "c"], ["x", "y", "z"]],
          mkTableOf 3 [["Phase", "Estimate", "x"], ["stale", "", ""]]]⟩ =
      ⟨[], [mkTableOf 3 [["a", "b", "c"], ["x", "y", "z"]],
        reconcileTable [("alpha", "$1")]
          (mkTableOf 3 [["Phase", "Estimate", "x"], ["stale", "", ""]])]⟩ :=
  (claim_C8_amended_frame [("alpha", "$1")] []
      [] [mkTableOf 3 [["a", "b", "c"], ["x", "y", "z"]]] []
      (mkTableOf 3 [["Phase", "Estimate", "x"], ["stale", "", ""]])).2
    (by decide) (by decide)
/-! ## Add-missing loop characterization (claim C2) -/

theorem insertAt_length (j : Nat) (x : α) (l : List α) (hj : j ≤ l.length) :
    (insertAt j x l).length = l.length + 1 := by
  rw [insertAt_eq]
  simp only [List.length_append, List.length_cons, List.length_take, List.length_drop]
  omega

theorem addMissingLoop_some (pc ec grid : Nat) (seen : List String) (j : Nat) :
    ∀ (md : Dict) (rows : List TableRow), j ≤ rows.length →
      addMissingLoop pc ec grid (some j) seen md rows =
        rows.take j ++
          ((missingOf md seen).map (fun p => newRowFor pc ec grid p.1 p.2)).reverse ++
          rows.drop j := by
  intro md
  induction md with
  | nil => intro rows hj; simp [addMissingLoop, missingOf]
  | cons p rest ih =>
    intro rows hj
    rw [addMissingLoop, missingOf, List.filter_cons]
    have htake : (rows.take j).length = j := by
      simp only [List.length_take]
      omega
    split_ifs with hc
    · show addMissingLoop pc ec grid (some j) seen rest
          (insertAt j (newRowFor pc ec grid p.1 p.2) rows) = _
      rw [ih (insertAt j (newRowFor pc ec grid p.1 p.2) rows)
        (by rw [insertAt_length j _ rows hj]; omega)]
      have h1 : (insertAt j (newRowFor pc ec grid p.1 p.2) rows).take j = rows.take j := by
        rw [insertAt_eq]
        exact List.take_left' htake
      have h2 : (insertAt j (newRowFor pc ec grid p.1 p.2) rows).drop j =
          newRowFor pc ec grid p.1 p.2 :: rows.drop j := by
        rw [insertAt_eq]
        exact List.drop_left' htake
      rw [h1, h2, missingOf]
      simp [List.append_assoc]
    · exact ih rows hj

theorem addMissingLoop_none (pc ec grid : Nat) (seen : List String) :
    ∀ (md : Dict) (rows : List TableRow),
      addMissingLoop pc ec grid none seen md rows =
        rows ++ (missingOf md seen).map (fun p => newRowFor pc ec grid p.1 p.2) := by
  intro md
  induction md with
  | nil => intro rows; simp [addMissingLoop, missingOf]
  | cons p rest ih =>
    intro rows
    rw [addMissingLoop, missingOf, List.filter_cons]
    split_ifs with hc
    · show addMissingLoop pc ec grid none seen rest
          (rows ++ [newRowFor pc ec grid p.1 p.2]) = _
      rw [ih (rows ++ [newRowFor pc ec grid p.1 p.2]), missingOf]
      simp
    · exact ih rows
/-- C2 counterexample: with phases `alpha, beta` missing (mapping order)
and a total row present, the claim predicts each new row is relocated
immediately before the total row, giving data rows
`Alpha, Beta, Total`.  The code reuses the stale `total_row_idx`, so the
second new row is inserted before the FIRST new row: the actual result is
`Beta, Alpha, Total`, and the last-added row (`Beta`) is not immediately
before the total row. -/
theorem claim_C2_counterexample :
    dataPhaseLows 0 (reconcileTable [("alpha", "$1"), ("beta", "$2"), ("total", "$3")]
        (mkTableOf 3 [["Phase", "Desc", "Estimate"], ["Total", "", ""]])) =
      ["beta", "alpha", "total"] ∧
    dataPhaseLows 0 (reconcileTable [("alpha", "$1"), ("beta", "$2"), ("total", "$3")]
        (mkTableOf 3 [["Phase", "Desc", "Estimate"], ["Total", "", ""]])) ≠
      ["alpha", "beta", "total"] := by
  refine ⟨by decide, by decide⟩

/-- C2 (amended): for every phase key not seen and not `"total"`, a new
row is appended; when a total row was found at index `j`, each new row is
inserted at index `j` — the first therefore lands immediately before the
total row, but every subsequent one lands immediately before the
previously inserted row, so the missing phases end up in REVERSE mapping
order, all between the rows originally before index `j` and the total
row (which keeps its position); with no total row the new rows are
appended at the end in mapping order.  Each populated new row carries the
phase name title-cased in a bold centered run and the formatted amount in
a centered run. -/
theorem claim_C2_amended_reverse_order (pc ec grid : Nat) (j : Nat)
    (seen : List String) (md : Dict) (rows : List TableRow)
    (hpc : pc < grid) (hec : ec < grid) (hne : pc ≠ ec) (hj : j ≤ rows.length) :
    (addMissingLoop pc ec grid (some j) seen md rows =
      rows.take j ++
        ((missingOf md seen).map (fun p => newRowFor pc ec grid p.1 p.2)).reverse ++
        rows.drop j) ∧
    (addMissingLoop pc ec grid none seen md rows =
      rows ++ (missingOf md seen).map (fun p => newRowFor pc ec grid p.1 p.2)) ∧
    (∀ k a : String,
      (newRowFor pc ec grid k a).cells[pc]? =
        some ⟨[⟨[⟨"", false⟩, ⟨pyTitle k, true⟩], some PAlign.center⟩]⟩ ∧
      (newRowFor pc ec grid k a).cells[ec]? =
        some ⟨[⟨[⟨"", false⟩, ⟨a, false⟩], some PAlign.center⟩]⟩) := by
  refine ⟨addMissingLoop_some pc ec grid seen j md rows hj,
    addMissingLoop_none pc ec grid seen md rows, ?_⟩
  intro k a
  rw [newRowFor, if_pos ⟨hpc, hec⟩]
  have hlen1 : (blankRow grid).cells.length = grid := by simp [blankRow]
  constructor
  · show (((blankRow grid).cells.set pc (newPhaseCell k)).set ec
        (updatedEstimateCell a))[pc]? = _
    rw [List.getElem?_set_ne (Ne.symm hne),
      List.getElem?_set_eq (by rw [hlen1]; exact hpc)]
    rfl
  · show (((blankRow grid).cells.set pc (newPhaseCell k)).set ec
        (updatedEstimateCell a))[ec]? = _
    rw [List.getElem?_set_eq (by rw [List.length_set, hlen1]; exact hec)]
    rfl
/-- Witness for the amended C2: two missing phases inserted before a
total row at index 1 come out in reverse mapping order. -/
theorem claim_C2_witness :
    addMissingLoop 0 2 3 (some 1) ["total"]
        [("alpha", "$1"), ("beta", "$2"), ("total", "$3")]
        [mkRowOf ["Phase", "Desc", "Estimate"], mkRowOf ["Total", "", ""]] =
      [mkRowOf ["Phase", "Desc", "Estimate"], mkRowOf ["Total", "", ""]].take 1 ++
        ((missingOf [("alpha", "$1"), ("beta", "$2"), ("total", "$3")] ["total"]).map
          (fun p => newRowFor 0 2 3 p.1 p.2)).reverse ++
        [mkRowOf ["Phase", "Desc", "Estimate"], mkRowOf ["Total", "", ""]].drop 1 :=
  (claim_C2_amended_reverse_order 0 2 3 1 ["total"]
    [("alpha", "$1"), ("beta", "$2"), ("total", "$3")]
    [mkRowOf ["Phase", "Desc", "Estimate"], mkRowOf ["Total", "", ""]]
    (by decide) (by decide) (by decide) (by decide)).1
/-! ## Reconciliation membership (claim C1) -/

theorem substrB_self (s : String) : substrB s s = true := by
  rw [substrB]
  cases hs : s.toList with
  | nil => rfl
  | cons c cs => simp [occursIn, leadsWith_refl]

theorem cellText_newPhaseCell (k : String) : cellText (newPhaseCell k) = pyTitle k := by
  simp [cellText, newPhaseCell, joinNL, paraText]

theorem cellText_mkCell (s : String) : cellText (mkCell s) = s := by
  simp [cellText, mkCell, joinNL, paraText]

theorem totalUpdateLoop_map_pc (pc ec : Nat) (hne : pc ≠ ec) (amt : String) :
    ∀ l : List TableRow,
      (totalUpdateLoop pc ec amt l).map (fun r => r.cells[pc]?) =
        l.map (fun r => r.cells[pc]?) := by
  intro l
  induction l with
  | nil => rfl
  | cons r rs ih =>
    rw [totalUpdateLoop]
    cases hc : r.cells[pc]? with
    | none => simp [ih]
    | some c =>
      by_cases ht : substrB "total" (pyLower (pyStrip (cellText c))) = true
      · simp only [ht, if_true]
        cases he : r.cells[ec]? with
        | none => simp [ih]
        | some e =>
          simp only [List.map_cons]
          rw [show (setCellAt r ec (updatedEstimateCell amt)).cells[pc]? = r.cells[pc]? from
            List.getElem?_set_ne (Ne.symm hne)]
      · simp [ht, ih]

theorem totalUpdateLoop_locate (pc ec : Nat) (amt : String) :
    ∀ (xs : List TableRow) (r : TableRow) (ys : List TableRow) (c e : Cell),
      (∀ x ∈ xs, ∀ cx, x.cells[pc]? = some cx →
        substrB "total" (pyLower (pyStrip (cellText cx))) = false) →
      r.cells[pc]? = some c →
      substrB "total" (pyLower (pyStrip (cellText c))) = true →
      r.cells[ec]? = some e →
      totalUpdateLoop pc ec amt (xs ++ r :: ys) =
        xs ++ setCellAt r ec (updatedEstimateCell amt) :: ys := by
  intro xs
  induction xs with
  | nil =>
    intro r ys c e _ hc ht he
    simp [totalUpdateLoop, hc, ht, he]
  | cons x xs ih =>
    intro r ys c e hxs hc ht he
    rw [List.cons_append, totalUpdateLoop]
    cases hcx : x.cells[pc]? with
    | none =>
      simp only []
      rw [ih r ys c e (fun z hz => hxs z (List.mem_cons_of_mem _ hz)) hc ht he]
      rfl
    | some cx =>
      have hf := hxs x (List.mem_cons_self _ _) cx hcx
      simp only [hf, Bool.false_eq_true, if_false]
      rw [ih r ys c e (fun z hz => hxs z (List.mem_cons_of_mem _ hz)) hc ht he]
      rfl

theorem filterMap_eq_of_map_eq {α β γ : Type} {g : α → Option β} {h : β → γ}
    {l1 l2 : List α} (he : l1.map g = l2.map g) :
    l1.filterMap (fun r => (g r).map h) = l2.filterMap (fun r => (g r).map h) := by
  have h1 : ∀ l : List α, l.filterMap (fun r => (g r).map h) =
      (l.map g).filterMap (fun o => o.map h) := by
    intro l
    rw [List.filterMap_map]
    rfl
  rw [h1, h1, he]

theorem findTotalAux_some_bounds (pc : Nat) :
    ∀ (l : List TableRow) (i j : Nat), findTotalAux pc i l = some j →
      i ≤ j ∧ j < i + l.length := by
  intro l
  induction l with
  | nil => intro i j h; cases h
  | cons r rs ih =>
    intro i j h
    rw [findTotalAux] at h
    cases hc : r.cells[pc]? with
    | none =>
      simp only [hc] at h
      have := ih (i + 1) j h
      constructor <;> [omega; (simp only [List.length_cons]; omega)]
    | some c =>
      simp only [hc] at h
      by_cases ht : substrB "total" (pyLower (pyStrip (cellText c))) = true
      · rw [if_pos ht] at h
        injection h with h
        subst h
        simp
      · rw [if_neg ht] at h
        have := ih (i + 1) j h
        constructor <;> [omega; (simp only [List.length_cons]; omega)]
theorem newRowFor_cells (pc ec grid : Nat) (hpc : pc < grid) (hec : ec < grid)
    (hne : pc ≠ ec) (k a : String) :
    (newRowFor pc ec grid k a).cells[pc]? = some (newPhaseCell k) ∧
    (newRowFor pc ec grid k a).cells[ec]? = some (updatedEstimateCell a) := by
  rw [newRowFor, if_pos ⟨hpc, hec⟩]
  have hlen1 : (blankRow grid).cells.length = grid := by simp [blankRow]
  constructor
  · show (((blankRow grid).cells.set pc (newPhaseCell k)).set ec
        (updatedEstimateCell a))[pc]? = _
    rw [List.getElem?_set_ne (Ne.symm hne),
      List.getElem?_set_eq (by rw [hlen1]; exact hpc)]
  · show (((blankRow grid).cells.set pc (newPhaseCell k)).set ec
        (updatedEstimateCell a))[ec]? = _
    rw [List.getElem?_set_eq (by rw [List.length_set, hlen1]; exact hec)]

theorem keptRows_text_prop (m : Dict) (pc ec : Nat) (hne : pc ≠ ec) :
    ∀ data : List TableRow,
      (∀ r ∈ data, (∃ c, r.cells[pc]? = some c) ∧ (∃ e, r.cells[ec]? = some e)) →
      ∀ r' ∈ keptRows m pc ec data, ∀ c', r'.cells[pc]? = some c' →
        ((∃ p ∈ m, substrB p.1 (pyLower (pyStrip (cellText c'))) = true ∨
            substrB (pyLower (pyStrip (cellText c'))) p.1 = true) ∨
          pyLower (pyStrip (cellText c')) = "total" ∨
          pyLower (pyStrip (cellText c')) = "estimated total") := by
  intro data
  induction data with
  | nil =>
    intro _ r' hr'
    simp [keptRows] at hr'
  | cons r rs ih =>
    intro hacc r' hr' c' hc'
    obtain ⟨⟨c, hc⟩, ⟨e, he⟩⟩ := hacc r (List.mem_cons_self _ _)
    rw [keptRows_cons] at hr'
    cases hf : findFirstMatch m (pyLower (pyStrip (cellText c))) with
    | some kv =>
      have hpr : processRow m pc ec r =
          (setCellAt r ec (updatedEstimateCell kv.2), some kv.1, false) := by
        rw [processRow, hc, he]
        simp only [hf]
      simp only [hpr, Bool.false_eq_true, if_false, List.mem_cons] at hr'
      rcases hr' with h1 | h1
      · subst h1
        rw [show (setCellAt r ec (updatedEstimateCell kv.2)).cells[pc]? = r.cells[pc]?
            from List.getElem?_set_ne (Ne.symm hne), hc] at hc'
        injection hc' with hc'
        subst hc'
        left
        rw [findFirstMatch] at hf
        refine ⟨kv, List.mem_of_find?_eq_some hf, ?_⟩
        have := List.find?_some hf
        simpa [Bool.or_eq_true] using this
      · exact ih (fun z hz => hacc z (List.mem_cons_of_mem _ hz)) r' h1 c' hc'
    | none =>
      have hpr : processRow m pc ec r =
          if pyLower (pyStrip (cellText c)) = "total" ∨
              pyLower (pyStrip (cellText c)) = "estimated total" then
            (r, none, false)
          else (r, none, true) := by
        rw [processRow, hc, he]
        simp only [hf]
      by_cases htot : (pyLower (pyStrip (cellText c)) = "total" ∨
          pyLower (pyStrip (cellText c)) = "estimated total")
      · rw [if_pos htot] at hpr
        simp only [hpr, Bool.false_eq_true, if_false, List.mem_cons] at hr'
        rcases hr' with h1 | h1
        · subst h1
          rw [hc] at hc'
          injection hc' with hc'
          subst hc'
          exact Or.inr htot
        · exact ih (fun z hz => hacc z (List.mem_cons_of_mem _ hz)) r' h1 c' hc'
      · rw [if_neg htot] at hpr
        simp only [hpr, if_true] at hr'
        exact ih (fun z hz => hacc z (List.mem_cons_of_mem _ hz)) r' hr' c' hc'

theorem mem_missingOf {m : Dict} {seen : List String} {k a : String}
    (hmem : (k, a) ∈ m) (hks : seen.contains k = false) (hkt : k ≠ "total") :
    (k, a) ∈ missingOf m seen := by
  rw [missingOf]
  refine List.mem_filter.mpr ⟨hmem, ?_⟩
  simp only [Bool.and_eq_true, Bool.not_eq_true', decide_eq_true_eq]
  exact ⟨hks, hkt⟩

theorem missingOf_subset {m : Dict} {seen : List String} :
    ∀ p ∈ missingOf m seen, p ∈ m := by
  intro p hp
  exact List.mem_of_mem_filter hp
theorem reconcile_dataPhaseLows (m : Dict) (grid : Nat) (hdr : TableRow)
    (data : List TableRow) (pc ec : Nat) (hne : pc ≠ ec)
    (hcols : findCols (headerTexts ⟨grid, hdr :: data⟩) = (some pc, some ec)) :
    ∃ X : List TableRow,
      dataPhaseLows pc (reconcileTable m ⟨grid, hdr :: data⟩) =
        X.filterMap (fun r => (r.cells[pc]?).map (fun c => pyLower (pyStrip (cellText c)))) ∧
      (∀ r ∈ X, r ∈ keptRows m pc ec data ∨
        r ∈ (missingOf m (seenKeys m pc ec data)).map
          (fun p => newRowFor pc ec grid p.1 p.2)) ∧
      (∀ p ∈ missingOf m (seenKeys m pc ec data),
        newRowFor pc ec grid p.1 p.2 ∈ X) := by
  have hbase : ∀ X : List TableRow,
      addMissingLoop pc ec grid (findTotalIdx pc (hdr :: keptRows m pc ec data))
          (seenKeys m pc ec data) m (hdr :: keptRows m pc ec data) = hdr :: X →
      dataPhaseLows pc (reconcileTable m ⟨grid, hdr :: data⟩) =
        X.filterMap (fun r => (r.cells[pc]?).map (fun c => pyLower (pyStrip (cellText c)))) := by
    intro X hX
    have h0 : reconcileTable m ⟨grid, hdr :: data⟩ =
        ⟨grid,
          if (keysOf m).contains "total" then
            hdr :: totalUpdateLoop pc ec ((dlookup "total" m).getD "") X
          else hdr :: X⟩ := by
      rw [reconcileTable]
      simp only [hcols, updateRemovePass_eq]
      rw [hX]
    rw [h0, dataPhaseLows]
    by_cases hT : (keysOf m).contains "total" = true
    · rw [if_pos hT]
      exact filterMap_eq_of_map_eq (totalUpdateLoop_map_pc pc ec hne _ X)
    · rw [if_neg hT]
      rfl
  cases htI : findTotalIdx pc (hdr :: keptRows m pc ec data) with
  | none =>
    refine ⟨keptRows m pc ec data ++ (missingOf m (seenKeys m pc ec data)).map
      (fun p => newRowFor pc ec grid p.1 p.2), ?_, ?_, ?_⟩
    · apply hbase
      rw [htI, addMissingLoop_none]
      rfl
    · intro r hr
      exact List.mem_append.mp hr
    · intro p hp
      exact List.mem_append_right _ (List.mem_map_of_mem _ hp)
  | some j =>
    have hb := findTotalAux_some_bounds pc (keptRows m pc ec data) 1 j htI
    obtain ⟨jj, rfl⟩ : ∃ jj, j = jj + 1 := ⟨j - 1, by omega⟩
    refine ⟨(keptRows m pc ec data).take jj ++
      ((missingOf m (seenKeys m pc ec data)).map
        (fun p => newRowFor pc ec grid p.1 p.2)).reverse ++
      (keptRows m pc ec data).drop jj, ?_, ?_, ?_⟩
    · apply hbase
      rw [htI, addMissingLoop_some pc ec grid (seenKeys m pc ec data) (jj + 1) m
        (hdr :: keptRows m pc ec data) (by simp only [List.length_cons]; omega)]
      rw [List.take_succ_cons, List.drop_succ_cons]
      simp [List.append_assoc]
    · intro r hr
      rcases List.mem_append.mp hr with hr | hr
      · rcases List.mem_append.mp hr with hr | hr
        · exact Or.inl (List.take_subset _ _ hr)
        · exact Or.inr (List.mem_reverse.mp hr)
      · exact Or.inl (List.drop_subset _ _ hr)
    · intro p hp
      exact List.mem_append_left _
        (List.mem_append_right _ (List.mem_reverse.mpr (List.mem_map_of_mem _ hp)))
/-- C1 counterexample: with mapping key `discovery` and a data row whose
phase text is `Discovery Phase`, the row matches and is kept, but its
phase text is not rewritten, so after reconciliation the set of lowercased
phase texts is `{"discovery phase"}`, which is not the key set
`{"discovery"}`. -/
theorem claim_C1_counterexample :
    (syncBudgetTable [("discovery", "$5,000")]
        ⟨[], [mkTableOf 3 [["Phase", "Desc", "Estimate"], ["Discovery Phase", "", ""]]]⟩).tables =
      [reconcileTable [("discovery", "$5,000")]
        (mkTableOf 3 [["Phase", "Desc", "Estimate"], ["Discovery Phase", "", ""]])] ∧
    dataPhaseLows 0 (reconcileTable [("discovery", "$5,000")]
        (mkTableOf 3 [["Phase", "Desc", "Estimate"], ["Discovery Phase", "", ""]])) =
      ["discovery phase"] ∧
    ¬("discovery phase" ∈ keysOf [("discovery", "$5,000")]) := by
  refine ⟨by decide, by decide, by decide⟩

/-- C1 (amended): after `sync_budget_table` runs on a document whose single
table qualifies with detected columns `pc ≠ ec`, where every data row has
both cells and the mapping keys are title-roundtrip-stable, every
lowercased stripped phase text of the reconciled data rows either matches
some `PhaseMapping` key by bidirectional substring containment or is
exactly `"total"`/`"estimated total"`; every key that was not matched and
is not `"total"` appears among those phase texts (via its title-cased new
row); and the total-amount pass overwrites the estimate cell of the first
row whose phase text contains `"total"` with `PhaseMapping["total"]`,
leaving all other rows in place.  (The claimed set EQUALITY fails: matched
rows keep their original wording, several rows may match one key, and the
total row keeps its original position rather than being last.) -/
theorem claim_C1_amended_membership (m : Dict) (ps : List Paragraph) (grid : Nat)
    (hdr : TableRow) (data : List TableRow) (pc ec : Nat)
    (hcols : findCols (headerTexts ⟨grid, hdr :: data⟩) = (some pc, some ec))
    (hqual : qualifies ⟨grid, hdr :: data⟩ = true)
    (hne : pc ≠ ec) (hpcg : pc < grid) (hecg : ec < grid)
    (hacc : ∀ r ∈ data, (∃ c, r.cells[pc]? = some c) ∧ (∃ e, r.cells[ec]? = some e))
    (htitle : ∀ k ∈ keysOf m, pyLower (pyStrip (pyTitle k)) = k) :
    (syncBudgetTable m ⟨ps, [⟨grid, hdr :: data⟩]⟩ =
      ⟨ps, [reconcileTable m ⟨grid, hdr :: data⟩]⟩) ∧
    (∀ s ∈ dataPhaseLows pc (reconcileTable m ⟨grid, hdr :: data⟩),
      (∃ p ∈ m, substrB p.1 s = true ∨ substrB s p.1 = true) ∨
        s = "total" ∨ s = "estimated total") ∧
    (∀ k ∈ keysOf m, k ≠ "total" → ¬ k ∈ seenKeys m pc ec data →
      k ∈ dataPhaseLows pc (reconcileTable m ⟨grid, hdr :: data⟩)) ∧
    (∀ (amt : String) (xs : List TableRow) (r : TableRow) (ys : List TableRow)
        (c e : Cell),
      (∀ x ∈ xs, ∀ cx, x.cells[pc]? = some cx →
        substrB "total" (pyLower (pyStrip (cellText cx))) = false) →
      r.cells[pc]? = some c → substrB "total" (pyLower (pyStrip (cellText c))) = true →
      r.cells[ec]? = some e →
      totalUpdateLoop pc ec amt (xs ++ r :: ys) =
        xs ++ setCellAt r ec (updatedEstimateCell amt) :: ys) := by
  obtain ⟨X, hX1, hX2, hX3⟩ := reconcile_dataPhaseLows m grid hdr data pc ec hne hcols
  refine ⟨?_, ?_, ?_,
    fun amt xs r ys c e hxs hc ht he =>
      totalUpdateLoop_locate pc ec amt xs r ys c e hxs hc ht he⟩
  · rw [syncBudgetTable]
    simp [syncGo, hqual]
  · intro s hs
    rw [hX1] at hs
    obtain ⟨r, hrX, hfr⟩ := List.mem_filterMap.mp hs
    obtain ⟨c', hc', hs'⟩ := Option.map_eq_some'.mp hfr
    subst hs'
    rcases hX2 r hrX with hk | hn
    · exact keptRows_text_prop m pc ec hne data hacc r hk c' hc'
    · obtain ⟨p, hp, hr⟩ := List.mem_map.mp hn
      subst hr
      rw [(newRowFor_cells pc ec grid hpcg hecg hne p.1 p.2).1] at hc'
      injection hc' with hc'
      subst hc'
      have hpm : p ∈ m := missingOf_subset p hp
      rw [cellText_newPhaseCell, htitle p.1 (List.mem_map_of_mem _ hpm)]
      exact Or.inl ⟨p, hpm, Or.inl (substrB_self p.1)⟩
  · intro k hk hkt hseen
    obtain ⟨p, hpm, hpk⟩ := List.mem_map.mp hk
    have hcont : (seenKeys m pc ec data).contains k = false := by simpa using hseen
    have hmiss : p ∈ missingOf m (seenKeys m pc ec data) := by
      have h1 : (p.1, p.2) ∈ m := by simpa using hpm
      have := mem_missingOf h1 (by rw [hpk]; exact hcont) (by rw [hpk]; exact hkt)
      simpa using this
    have hrX := hX3 p hmiss
    rw [hX1]
    refine List.mem_filterMap.mpr ⟨newRowFor pc ec grid p.1 p.2, hrX, ?_⟩
    rw [(newRowFor_cells pc ec grid hpcg hecg hne p.1 p.2).1]
    have htext : pyLower (pyStrip (cellText (newPhaseCell p.1))) = k := by
      rw [cellText_newPhaseCell, htitle p.1 (List.mem_map_of_mem _ hpm)]
      exact hpk
    simp [htext]
/-- Witness for the amended C1: in the reconciled example table the data
phase text `"discovery phase"` matches the key `"discovery"` by
containment. -/
theorem claim_C1_witness :
    (∃ p ∈ ([("discovery", "$5,000"), ("total", "$20,000")] : Dict),
      substrB p.1 "discovery phase" = true ∨ substrB "discovery phase" p.1 = true) ∨
      "discovery phase" = "total" ∨ "discovery phase" = "estimated total" :=
  (claim_C1_amended_membership [("discovery", "$5,000"), ("total", "$20,000")] [] 3
    (mkRowOf ["Phase", "Desc", "Estimate"])
    [mkRowOf ["Discovery Phase", "", ""], mkRowOf ["Total", "", ""]]
    0 2 (by decide) (by decide) (by decide) (by decide) (by decide)
    (by
      intro r hr
      simp only [List.mem_cons, List.not_mem_nil, or_false] at hr
      rcases hr with h | h <;> subst h <;> exact ⟨⟨_, rfl⟩, ⟨_, rfl⟩⟩)
    (by decide)).2.1 "discovery phase" (by decide)
end SOWGen
